import Mathlib

/-!
# Verification of the article-scraper pipeline

Shallow embedding of the core functions of the universal-article-scraper
repository (link filtering, article classification, summarization fallback,
and persistence naming), together with theorems settling the specification
claims.  Python strings are modelled as Lean `String`s (lists of characters);
Python `None`-able JSON fields are modelled by an explicit three-state type.
-/

namespace Scraper

/-! ## Python string primitives

Character-list implementations of the Python string operations used by the
scraper: `str.strip`, `str.split(sep)`, `str.split()`, `str.count`, the `in`
operator, slicing `s[:n]`, `str.endswith`, `str.replace` and `str.join`. -/

/-- Python word character for the regex class `\w` (ASCII model). -/
def wordc (c : Char) : Bool := c.isAlphanum || c = '_'

/-- Right strip: drop trailing characters satisfying `p` (Python `rstrip`). -/
def rstripP (p : Char → Bool) (l : List Char) : List Char :=
  (l.reverse.dropWhile p).reverse

/-- Strip from both ends (Python `strip` with a character predicate). -/
def stripAll (p : Char → Bool) (l : List Char) : List Char :=
  rstripP p (l.dropWhile p)

/-- Python `str.strip()` (whitespace from both ends). -/
def pyStrip (s : String) : String :=
  String.mk (stripAll Char.isWhitespace s.data)

/-- Python slicing `s[:n]` (by characters). -/
def pySlice (s : String) (n : Nat) : String :=
  String.mk (s.data.take n)

/-- Python `len(s)` (number of characters). -/
def pyLen (s : String) : Nat := s.data.length

/-- Python `s.endswith(suf)`. -/
def pyEndsWith (s suf : String) : Bool := suf.data.isSuffixOf s.data

/-- Prepend a character to the first piece of a split (the no-separator step
of `splitChar`). -/
def consHead (c : Char) : List (List Char) → List (List Char)
  | [] => [[c]]
  | x :: t => (c :: x) :: t

/-- Python `s.split(sep)` for a one-character separator: keeps empty pieces,
always returns at least one piece. -/
def splitChar (sep : Char) : List Char → List (List Char)
  | [] => [[]]
  | c :: cs =>
    if c = sep then [] :: splitChar sep cs else consHead c (splitChar sep cs)

/-- Python `sub in s` (substring containment). -/
def hasSub (sub : List Char) (s : List Char) : Bool :=
  s.tails.any (fun t => sub.isPrefixOf t)

/-- Python `sub in s` on strings. -/
def pyIn (sub s : String) : Bool := hasSub sub.data s.data

/-- Fuel-driven worker for `subSplit`; the fuel dominates the length of the
list, so the fallback `[l]` for exhausted fuel is never reached from
`subSplit`.  Structural recursion on the fuel keeps the function reducible
by the kernel. -/
def subSplitGo (sub : List Char) : Nat → List Char → List (List Char)
  | _, [] => [[]]
  | 0, l => [l]
  | fuel + 1, c :: rest =>
    if sub ≠ [] ∧ sub.isPrefixOf (c :: rest) then
      [] :: subSplitGo sub fuel ((c :: rest).drop sub.length)
    else
      match subSplitGo sub fuel rest with
      | x :: t => (c :: x) :: t
      | [] => [[c]]

/-- Split on a (non-empty) substring, non-overlapping and left-to-right,
like Python `str.split(sub)`. -/
def subSplit (sub : List Char) (l : List Char) : List (List Char) :=
  subSplitGo sub l.length l

/-- Python `s.count(sub)` (count of non-overlapping occurrences). -/
def pyCount (s sub : String) : Nat := (subSplit sub.data s.data).length - 1

/-- Python `s.replace(sub, rep)`. -/
def pyReplace (s sub rep : String) : String :=
  String.mk (List.intercalate rep.data (subSplit sub.data s.data))

/-- Python `str.split()` with no argument: split on whitespace runs,
dropping empty pieces.  `acc` accumulates the current word reversed. -/
def wordsAux (acc : List Char) : List Char → List (List Char)
  | [] => if acc = [] then [] else [acc.reverse]
  | c :: cs =>
    if c.isWhitespace then
      if acc = [] then wordsAux [] cs else acc.reverse :: wordsAux [] cs
    else wordsAux (c :: acc) cs

/-- Python `s.split()` on strings. -/
def pySplitWs (s : String) : List String :=
  (wordsAux [] s.data).map String.mk

/-- Python `' '.join` style joining over character lists. -/
def joinWith (sep : List Char) : List (List Char) → List Char
  | [] => []
  | [x] => x
  | x :: xs => x ++ sep ++ joinWith sep xs

/-- `sum` over a list of Python booleans (`True` counts 1). -/
def b2n (b : Bool) : Nat := if b then 1 else 0

/-! ## `scraper/save.py`: `sanitize_filename`

Embeds `sanitize_filename(title, max_length=100)`: lowercase, keep only
`[\w\s-]`, replace whitespace runs by `-`, collapse `-` runs, strip `-`,
truncate to `max_length` with a trailing-hyphen rstrip, defaulting to
`"untitled"`. -/

/-- Replace each maximal run of characters satisfying `p` by the single
character `rep` (the effect of `re.sub(p+, rep, s)`). `inRun` records whether
the previous character was part of a run. -/
def squashRuns (p : Char → Bool) (rep : Char) (inRun : Bool) : List Char → List Char
  | [] => []
  | c :: cs =>
    if p c then
      if inRun then squashRuns p rep true cs
      else rep :: squashRuns p rep true cs
    else c :: squashRuns p rep false cs

/-- The normalization chain of `sanitize_filename` (source lines 51-57):
lowercase, keep `[\w\s-]`, whitespace runs to `-`, collapse `-` runs,
strip `-` from both ends. -/
def sanitizeCore (title : String) : List Char :=
  stripAll (fun c => c = '-')
    (squashRuns (fun c => c = '-') '-' false
      (squashRuns Char.isWhitespace '-' false
        ((title.data.map Char.toLower).filter
          (fun c => wordc c || c.isWhitespace || c = '-'))))

/-- The truncation step of `sanitize_filename` (source lines 60-61):
`filename[:max_length].rstrip('-')` when over the limit. -/
def sanitizeTrunc (max_length : Nat) (f4 : List Char) : List Char :=
  if max_length < f4.length then rstripP (fun c => c = '-') (f4.take max_length) else f4

/-- `sanitize_filename` from `scraper/save.py`. -/
def sanitize_filename (title : String) (max_length : Nat := 100) : String :=
  if title = "" then "untitled"
  else
    let f5 := sanitizeTrunc max_length (sanitizeCore title)
    if f5 = [] then "untitled" else String.mk f5

/-! ### Lemmas about the string helpers -/

theorem mem_squashRuns {p : Char → Bool} {rep : Char} :
    ∀ (b : Bool) (l : List Char) {c : Char}, c ∈ squashRuns p rep b l →
      c = rep ∨ (c ∈ l ∧ p c = false) := by
  intro b l
  induction l generalizing b with
  | nil => intro c h; simp [squashRuns] at h
  | cons a l ih =>
    intro c h
    by_cases hpa : p a = true
    · cases b with
      | true =>
        simp only [squashRuns, if_pos hpa, if_pos rfl] at h
        rcases ih true h with h1 | ⟨h2, h3⟩
        · exact Or.inl h1
        · exact Or.inr ⟨List.mem_cons_of_mem _ h2, h3⟩
      | false =>
        simp only [squashRuns, if_pos hpa] at h
        rw [if_neg (by simp)] at h
        rcases List.mem_cons.mp h with h | h
        · exact Or.inl h
        · rcases ih true h with h1 | ⟨h2, h3⟩
          · exact Or.inl h1
          · exact Or.inr ⟨List.mem_cons_of_mem _ h2, h3⟩
    · simp only [squashRuns, if_neg hpa] at h
      rcases List.mem_cons.mp h with h | h
      · subst h
        exact Or.inr ⟨List.mem_cons_self _ _, by simpa using hpa⟩
      · rcases ih false h with h1 | ⟨h2, h3⟩
        · exact Or.inl h1
        · exact Or.inr ⟨List.mem_cons_of_mem _ h2, h3⟩

theorem rstripP_isPrefixOf (p : Char → Bool) (l : List Char) : rstripP p l <+: l := by
  have h : List.dropWhile p l.reverse <:+ l.reverse := l.reverse.dropWhile_suffix p
  have h2 := (@List.reverse_prefix _ (List.dropWhile p l.reverse) l.reverse).mpr h
  simpa [rstripP] using h2

theorem mem_rstripP {p : Char → Bool} {l : List Char} {c : Char}
    (h : c ∈ rstripP p l) : c ∈ l :=
  ((rstripP_isPrefixOf p l).sublist).mem h

theorem mem_stripAll {p : Char → Bool} {l : List Char} {c : Char}
    (h : c ∈ stripAll p l) : c ∈ l :=
  ((l.dropWhile_suffix p).sublist).mem (mem_rstripP h)

theorem length_rstripP_le (p : Char → Bool) (l : List Char) :
    (rstripP p l).length ≤ l.length :=
  ((rstripP_isPrefixOf p l).sublist).length_le

theorem length_stripAll_le (p : Char → Bool) (l : List Char) :
    (stripAll p l).length ≤ l.length :=
  Nat.le_trans (length_rstripP_le p _) ((l.dropWhile_suffix p).sublist).length_le

theorem head?_dropWhile_not {p : Char → Bool} :
    ∀ {l : List Char} {a : Char}, (l.dropWhile p).head? = some a → p a = false := by
  intro l
  induction l with
  | nil => intro a h; simp at h
  | cons x xs ih =>
    intro a h
    rw [List.dropWhile_cons] at h
    by_cases hx : p x = true
    · rw [if_pos hx] at h
      exact ih h
    · rw [if_neg hx] at h
      simp only [List.head?_cons, Option.some.injEq] at h
      subst h
      simpa using hx

theorem getLast?_rstripP_not {p : Char → Bool} {l : List Char} {a : Char}
    (h : (rstripP p l).getLast? = some a) : p a = false := by
  unfold rstripP at h
  rw [List.getLast?_reverse] at h
  exact head?_dropWhile_not h

theorem head?_rstripP {p : Char → Bool} {l : List Char} {a : Char}
    (h : (rstripP p l).head? = some a) : l.head? = some a := by
  rcases rstripP_isPrefixOf p l with ⟨t, ht⟩
  cases hr : rstripP p l with
  | nil => rw [hr] at h; simp at h
  | cons x xs =>
    rw [hr] at h ht
    simp only [List.head?_cons, Option.some.injEq] at h
    subst h
    rw [← ht]
    simp

theorem head?_stripAll_not {p : Char → Bool} {l : List Char} {a : Char}
    (h : (stripAll p l).head? = some a) : p a = false :=
  head?_dropWhile_not (head?_rstripP h)

theorem getLast?_stripAll_not {p : Char → Bool} {l : List Char} {a : Char}
    (h : (stripAll p l).getLast? = some a) : p a = false :=
  getLast?_rstripP_not h

theorem wordc_not_whitespace {c : Char} (h : wordc c = true) : c.isWhitespace = false := by
  by_contra hw
  have hw' : c.isWhitespace = true := by
    cases hc : c.isWhitespace
    · exact absurd hc hw
    · rfl
  have hcases : c = ' ' ∨ c = '\t' ∨ c = '\r' ∨ c = '\n' := by
    simp only [Char.isWhitespace] at hw'
    rcases Bool.or_eq_true_iff.mp hw' with h1 | h1
    · rcases Bool.or_eq_true_iff.mp h1 with h2 | h2
      · rcases Bool.or_eq_true_iff.mp h2 with h3 | h3
        · exact Or.inl (by exact decide_eq_true_eq.mp h3)
        · exact Or.inr (Or.inl (by exact decide_eq_true_eq.mp h3))
      · exact Or.inr (Or.inr (Or.inl (by exact decide_eq_true_eq.mp h2)))
    · exact Or.inr (Or.inr (Or.inr (by exact decide_eq_true_eq.mp h1)))
  rcases hcases with h1 | h1 | h1 | h1 <;> (subst h1; simp [wordc] at h)

theorem allowed_not_whitespace {c : Char} (h : (wordc c || c = '-') = true) :
    c.isWhitespace = false := by
  rcases Bool.or_eq_true_iff.mp h with h1 | h1
  · exact wordc_not_whitespace h1
  · have : c = '-' := by exact decide_eq_true_eq.mp h1
    subst this; decide

/-! ### Claim C10: `sanitize_filename` output shape -/

theorem mem_sanitizeCore {title : String} {c : Char}
    (h : c ∈ sanitizeCore title) : (wordc c || c = '-') = true := by
  unfold sanitizeCore at h
  rcases mem_squashRuns _ _ (mem_stripAll h) with h1 | ⟨h2, _⟩
  · subst h1; decide
  · rcases mem_squashRuns _ _ h2 with h3 | ⟨h4, h5⟩
    · subst h3; decide
    · have := List.of_mem_filter h4
      simp only [Bool.or_eq_true] at this
      rcases this with (h6 | h6) | h6
      · simp [h6]
      · rw [h6] at h5; simp at h5
      · simp [h6]

theorem mem_sanitizeTrunc {n : Nat} {f4 : List Char} {c : Char}
    (h : c ∈ sanitizeTrunc n f4) : c ∈ f4 := by
  unfold sanitizeTrunc at h
  by_cases hn : n < f4.length
  · rw [if_pos hn] at h
    exact List.mem_of_mem_take (mem_rstripP h)
  · rwa [if_neg hn] at h

theorem head?_sanitizeCore_not {title : String} {a : Char}
    (h : (sanitizeCore title).head? = some a) : (a = '-') = false := by
  have := head?_stripAll_not (p := fun c => c = '-') h
  simpa using this

theorem getLast?_sanitizeCore_not {title : String} {a : Char}
    (h : (sanitizeCore title).getLast? = some a) : (a = '-') = false := by
  have := getLast?_stripAll_not (p := fun c => c = '-') h
  simpa using this

theorem head?_sanitizeTrunc {n : Nat} (hn : 0 < n) {f4 : List Char} {a : Char}
    (h : (sanitizeTrunc n f4).head? = some a) : f4.head? = some a := by
  unfold sanitizeTrunc at h
  by_cases hl : n < f4.length
  · rw [if_pos hl] at h
    have h2 := head?_rstripP h
    cases f4 with
    | nil => simp at hl
    | cons x xs =>
      rw [List.take_cons hn] at h2
      simpa using h2
  · rwa [if_neg hl] at h

theorem getLast?_sanitizeTrunc_not {n : Nat} {f4 : List Char} {a : Char}
    (hlast : f4.getLast? = some a → (a = '-') = false)
    (h : (sanitizeTrunc n f4).getLast? = some a) : (a = '-') = false := by
  unfold sanitizeTrunc at h
  by_cases hl : n < f4.length
  · rw [if_pos hl] at h
    have := getLast?_rstripP_not (p := fun c => c = '-') h
    simpa using this
  · rw [if_neg hl] at h
    exact hlast h

theorem length_sanitizeTrunc_le {n : Nat} {f4 : List Char} (h : f4.length ≤ n) :
    (sanitizeTrunc n f4).length ≤ n := by
  unfold sanitizeTrunc
  by_cases hl : n < f4.length
  · omega
  · rw [if_neg hl]; exact h

theorem length_sanitizeTrunc_le' (n : Nat) (f4 : List Char) :
    (sanitizeTrunc n f4).length ≤ n ∨ (sanitizeTrunc n f4).length ≤ f4.length := by
  unfold sanitizeTrunc
  by_cases hl : n < f4.length
  · rw [if_pos hl]
    left
    calc (rstripP (fun c => c = '-') (f4.take n)).length
        ≤ (f4.take n).length := length_rstripP_le _ _
      _ ≤ n := by simp
  · rw [if_neg hl]; right; exact Nat.le_refl _

/-- C10: for every title, `sanitize_filename` with the default maximum length
100 returns a non-empty string of at most 100 characters whose characters are
word characters or hyphens (in particular no whitespace), with no leading or
trailing hyphen; an empty title yields `"untitled"`. -/
theorem C10_sanitize_filename_shape (title : String) :
    sanitize_filename title 100 ≠ "" ∧
    pyLen (sanitize_filename title 100) ≤ 100 ∧
    (∀ c ∈ (sanitize_filename title 100).data,
      (wordc c || c = '-') = true ∧ c.isWhitespace = false) ∧
    (sanitize_filename title 100).data.head? ≠ some '-' ∧
    (sanitize_filename title 100).data.getLast? ≠ some '-' ∧
    (title = "" → sanitize_filename title 100 = "untitled") := by
  have untitled_props :
      ("untitled" : String) ≠ "" ∧
      pyLen "untitled" ≤ 100 ∧
      (∀ c ∈ ("untitled" : String).data,
        (wordc c || c = '-') = true ∧ c.isWhitespace = false) ∧
      ("untitled" : String).data.head? ≠ some '-' ∧
      ("untitled" : String).data.getLast? ≠ some '-' := by
    refine ⟨by decide, by decide, ?_, by decide, by decide⟩
    intro c hc
    fin_cases hc <;> exact ⟨by decide, by decide⟩
  by_cases ht : title = ""
  · rw [ht]
    show (sanitize_filename "" 100 ≠ "") ∧ _
    have he : sanitize_filename "" 100 = "untitled" := by unfold sanitize_filename; rw [if_pos rfl]
    rw [he]
    exact ⟨untitled_props.1, untitled_props.2.1, untitled_props.2.2.1,
      untitled_props.2.2.2.1, untitled_props.2.2.2.2, fun _ => rfl⟩
  · have hdef : sanitize_filename title 100 =
        (if sanitizeTrunc 100 (sanitizeCore title) = [] then "untitled"
         else String.mk (sanitizeTrunc 100 (sanitizeCore title))) := by
      unfold sanitize_filename
      rw [if_neg ht]
    by_cases h5 : sanitizeTrunc 100 (sanitizeCore title) = []
    · rw [hdef, if_pos h5]
      exact ⟨untitled_props.1, untitled_props.2.1, untitled_props.2.2.1,
        untitled_props.2.2.2.1, untitled_props.2.2.2.2, fun h => absurd h ht⟩
    · rw [hdef, if_neg h5]
      refine ⟨?_, ?_, ?_, ?_, ?_, fun h => absurd h ht⟩
      · intro hcon
        apply h5
        have : (String.mk (sanitizeTrunc 100 (sanitizeCore title))).data = ("" : String).data := by
          rw [hcon]
        simpa using this
      · show (sanitizeTrunc 100 (sanitizeCore title)).length ≤ 100
        rcases length_sanitizeTrunc_le' 100 (sanitizeCore title) with h | h
        · exact h
        · unfold sanitizeTrunc at h ⊢
          by_cases hl : 100 < (sanitizeCore title).length
          · rw [if_pos hl] at h ⊢
            calc (rstripP (fun c => c = '-') ((sanitizeCore title).take 100)).length
                ≤ ((sanitizeCore title).take 100).length := length_rstripP_le _ _
              _ ≤ 100 := by simp
          · rw [if_neg hl]
            omega
      · intro c hc
        have hmem : c ∈ sanitizeCore title := mem_sanitizeTrunc hc
        exact ⟨mem_sanitizeCore hmem, allowed_not_whitespace (mem_sanitizeCore hmem)⟩
      · intro hcon
        have h1 : (sanitizeCore title).head? = some '-' :=
          head?_sanitizeTrunc (by omega) hcon
        have := head?_sanitizeCore_not h1
        simp at this
      · intro hcon
        have := getLast?_sanitizeTrunc_not (fun h => getLast?_sanitizeCore_not h) hcon
        simp at this

/-! ## `scraper/summarizer.py`

`summarize` gates on content length, then delegates to the abstractive model
(external: Hugging Face pipeline) or to the extractive `_fallback_summary`.
The external pieces (environment configuration, model availability and model
output) are parameters of the embedding. -/

/-- The sentence splitter of `_fallback_summary` (source lines 124-128):
period-split fragments are stripped and kept, with the period restored, when
non-empty and longer than 10 characters. -/
def usableSentences (text : String) : List String :=
  (splitChar '.' text.data).foldr
    (fun frag acc =>
      let s := stripAll Char.isWhitespace frag
      if s ≠ [] ∧ s.length > 10 then String.mk (s ++ ['.']) :: acc else acc) []

/-- The greedy accumulation loop of `_fallback_summary` (source lines 135-143):
take sentences while the running character count stays within `max_chars`. -/
def takeSent (max_chars : Nat) : Nat → List String → List String
  | _, [] => []
  | cur, s :: rest =>
    if cur + pyLen s ≤ max_chars then s :: takeSent max_chars (cur + pyLen s) rest
    else []

/-- `_fallback_summary` from `scraper/summarizer.py`. -/
def fallback_summary (text : String) (max_chars : Nat := 160) : String :=
  if text = "" then "N/A"
  else if hs : usableSentences text = [] then
    String.mk (text.data.take max_chars ++
      if max_chars < text.data.length then ['.', '.', '.'] else [])
  else if takeSent max_chars 0 ((usableSentences text).take 5) = [] then
    String.mk (((usableSentences text).head hs).data.take max_chars ++
      if max_chars < ((usableSentences text).head hs).data.length then ['.', '.', '.'] else [])
  else
    String.mk (joinWith [' ']
      ((takeSent max_chars 0 ((usableSentences text).take 5)).map String.data))

/-- External configuration of `summarize`: summary length bounds (env vars
`SUMMARY_MAX_LENGTH`/`SUMMARY_MIN_LENGTH`), the `SUMMARY_ENABLED` switch, the
availability of the abstractive model, and the model's output on a given
input (`none` models a runtime failure or an empty result list). -/
structure SummCfg where
  summaryMaxLength : Nat
  summaryMinLength : Nat
  summaryEnabled : Bool
  modelAvailable : Bool
  modelOutput : String → Option String

/-- `summarize` from `scraper/summarizer.py`. -/
def summarize (cfg : SummCfg) (text : String) : String :=
  if text = "" || pyLen (pyStrip text) < 100 then (if text = "" then "N/A" else text)
  else if cfg.summaryEnabled = false then fallback_summary text cfg.summaryMaxLength
  else if cfg.modelAvailable = false then fallback_summary text cfg.summaryMaxLength
  else
    let input := pySlice text 4000
    match cfg.modelOutput input with
    | some out =>
      if pyStrip out ≠ "" then pyStrip out
      else fallback_summary input cfg.summaryMaxLength
    | none => fallback_summary input cfg.summaryMaxLength

/-! ### Claim C7: `summarize` on short content -/

/-- C7: for every configuration and every content string shorter than 100
characters, `summarize` returns the content unchanged, or the placeholder
`"N/A"` when the content is empty; in particular it never returns the empty
string. -/
theorem C7_summarize_short_content (cfg : SummCfg) (text : String)
    (h : pyLen text < 100) :
    (summarize cfg text = text ∨ summarize cfg text = "N/A") ∧
    summarize cfg text ≠ "" := by
  have hstrip : pyLen (pyStrip text) < 100 := by
    have : (stripAll Char.isWhitespace text.data).length ≤ text.data.length :=
      length_stripAll_le _ _
    unfold pyLen pyStrip at *
    simpa using Nat.lt_of_le_of_lt this h
  have hcond : (text = "" || pyLen (pyStrip text) < 100) = true := by
    simp [hstrip]
  unfold summarize
  rw [if_pos hcond]
  by_cases ht : text = ""
  · rw [if_pos ht]
    exact ⟨Or.inr rfl, by decide⟩
  · rw [if_neg ht]
    exact ⟨Or.inl rfl, ht⟩

/-- Witness for C7 at a concrete short text and configuration. -/
theorem C7_summarize_short_content_witness :
    pyLen "hi" < 100 ∧
    ((summarize ⟨160, 60, true, true, fun _ => none⟩ "hi" = "hi" ∨
      summarize ⟨160, 60, true, true, fun _ => none⟩ "hi" = "N/A") ∧
     summarize ⟨160, 60, true, true, fun _ => none⟩ "hi" ≠ "") :=
  ⟨by decide, C7_summarize_short_content ⟨160, 60, true, true, fun _ => none⟩ "hi" (by decide)⟩

/-! ### Claim C8: the extractive fallback summary -/

theorem takeSent_sum_le (mc : Nat) :
    ∀ (l : List String) (cur : Nat), ((takeSent mc cur l).map pyLen).sum ≤ mc - cur := by
  intro l
  induction l with
  | nil => intro cur; simp [takeSent]
  | cons s rest ih =>
    intro cur
    by_cases hc : cur + pyLen s ≤ mc
    · rw [takeSent, if_pos hc]
      have := ih (cur + pyLen s)
      simp only [List.map_cons, List.sum_cons]
      omega
    · rw [takeSent, if_neg hc]
      simp

theorem takeSent_length_le (mc : Nat) :
    ∀ (l : List String) (cur : Nat), (takeSent mc cur l).length ≤ l.length := by
  intro l
  induction l with
  | nil => intro cur; simp [takeSent]
  | cons s rest ih =>
    intro cur
    by_cases hc : cur + pyLen s ≤ mc
    · rw [takeSent, if_pos hc]
      simpa using ih (cur + pyLen s)
    · rw [takeSent, if_neg hc]
      simp

theorem mem_takeSent {mc : Nat} :
    ∀ {l : List String} {cur : Nat} {s : String}, s ∈ takeSent mc cur l → s ∈ l := by
  intro l
  induction l with
  | nil => intro cur s h; simp [takeSent] at h
  | cons x rest ih =>
    intro cur s h
    by_cases hc : cur + pyLen x ≤ mc
    · rw [takeSent, if_pos hc] at h
      rcases List.mem_cons.mp h with h | h
      · exact h ▸ List.mem_cons_self _ _
      · exact List.mem_cons_of_mem _ (ih h)
    · rw [takeSent, if_neg hc] at h
      simp at h

theorem length_joinWith_space :
    ∀ (ps : List (List Char)), ps ≠ [] →
      (joinWith [' '] ps).length = (ps.map List.length).sum + (ps.length - 1) := by
  intro ps
  induction ps with
  | nil => intro h; exact absurd rfl h
  | cons x rest ih =>
    intro _
    cases rest with
    | nil => simp [joinWith]
    | cons y t =>
      have hne : (y :: t) ≠ [] := by simp
      rw [joinWith]
      have h2 := ih hne
      simp only [List.map_cons, List.sum_cons, List.length_cons] at h2 ⊢
      simp only [List.length_append, List.length_cons, List.length_nil]
      · omega
      · exact hne

theorem usableSentences_getLast {text : String} :
    ∀ {s : String}, s ∈ usableSentences text → s.data.getLast? = some '.' := by
  unfold usableSentences
  generalize splitChar '.' text.data = frags
  induction frags with
  | nil => intro s h; simp at h
  | cons f fs ih =>
    intro s h
    simp only [List.foldr_cons] at h
    by_cases hc : stripAll Char.isWhitespace f ≠ [] ∧ (stripAll Char.isWhitespace f).length > 10
    · rw [if_pos hc] at h
      rcases List.mem_cons.mp h with h | h
      · subst h
        show (stripAll Char.isWhitespace f ++ ['.']).getLast? = some '.'
        rw [List.getLast?_append]
        rfl
      · exact ih h
    · rw [if_neg hc] at h
      exact ih h

theorem getLast_joinWith :
    ∀ (ps : List String), ps ≠ [] → (∀ s ∈ ps, s.data.getLast? = some '.') →
      (joinWith [' '] (ps.map String.data)).getLast? = some '.' := by
  intro ps
  induction ps with
  | nil => intro h; exact absurd rfl h
  | cons x rest ih =>
    intro _ hall
    cases rest with
    | nil =>
      simp only [List.map_cons, List.map_nil, joinWith]
      exact hall x (List.mem_cons_self _ _)
    | cons y t =>
      have hne : (y :: t) ≠ [] := by simp
      have hall' : ∀ s ∈ y :: t, s.data.getLast? = some '.' :=
        fun s hs => hall s (List.mem_cons_of_mem _ hs)
      have hrec := ih hne hall'
      have hnonnil : joinWith [' '] ((y :: t).map String.data) ≠ [] := by
        intro hcon
        rw [hcon] at hrec
        simp at hrec
      show ((x.data ++ [' ']) ++ joinWith [' '] ((y :: t).map String.data)).getLast? = some '.'
      rw [List.getLast?_append, hrec]
      rfl

theorem usableSentences_nil_of_short {text : String}
    (h : ∀ frag ∈ splitChar '.' text.data, (stripAll Char.isWhitespace frag).length ≤ 10) :
    usableSentences text = [] := by
  unfold usableSentences
  revert h
  generalize splitChar '.' text.data = frags
  induction frags with
  | nil => intro _; simp
  | cons f fs ih =>
    intro h
    simp only [List.foldr_cons]
    have hf := h f (List.mem_cons_self _ _)
    rw [if_neg (by omega)]
    exact ih (fun frag hfrag => h frag (List.mem_cons_of_mem _ hfrag))

/-- C8 counterexample: the claim that the sentence-concatenation output of
`_fallback_summary` stays within the `max_chars` budget is false: for a text
made of two 80-character sentences and the default budget `160`, the joined
output has 161 characters (the greedy loop does not count the joining
spaces). -/
theorem C8_fallback_counterexample :
    160 < pyLen (fallback_summary
      (String.mk (List.replicate 79 'a' ++ '.' :: (List.replicate 79 'a' ++ ['.']))) 160) := by
  decide

/-- C8 (amended): the extractive fallback is a total function; its output is
within `max_chars` plus one character per joining space (at most 4 extra); any
output built from usable sentences ends with a period; and a non-empty input
with no usable sentence (every period-split fragment stripping to at most 10
characters) is truncated to `max_chars` characters with an ellipsis appended
exactly when the input is longer than the budget. -/
theorem C8_fallback_amended (text : String) (mc : Nat) (ht : text ≠ "") :
    pyLen (fallback_summary text mc) ≤ mc + 4 ∧
    (usableSentences text ≠ [] → (fallback_summary text mc).data.getLast? = some '.') ∧
    ((∀ frag ∈ splitChar '.' text.data, (stripAll Char.isWhitespace frag).length ≤ 10) →
      fallback_summary text mc =
        String.mk (text.data.take mc ++
          if mc < text.data.length then ['.', '.', '.'] else [])) := by
  refine ⟨?_, ?_, ?_⟩
  · -- length bound
    unfold fallback_summary
    rw [if_neg ht]
    by_cases hs : usableSentences text = []
    · rw [dif_pos hs]
      show (text.data.take mc ++ _).length ≤ mc + 4
      rw [List.length_append, List.length_take]
      by_cases hl : mc < text.data.length
      · rw [if_pos hl]; simp
      · rw [if_neg hl]; simp
    · rw [dif_neg hs]
      by_cases hp : takeSent mc 0 ((usableSentences text).take 5) = []
      · rw [if_pos hp]
        show (((usableSentences text).head hs).data.take mc ++ _).length ≤ mc + 4
        rw [List.length_append, List.length_take]
        by_cases hl : mc < ((usableSentences text).head hs).data.length
        · rw [if_pos hl]; simp
        · rw [if_neg hl]; simp
      · rw [if_neg hp]
        show (joinWith [' ']
          ((takeSent mc 0 ((usableSentences text).take 5)).map String.data)).length ≤ mc + 4
        have hmapne : (takeSent mc 0 ((usableSentences text).take 5)).map String.data ≠ [] := by
          simpa using hp
        rw [length_joinWith_space _ hmapne]
        have hsum : (((takeSent mc 0 ((usableSentences text).take 5)).map String.data).map
            List.length).sum ≤ mc := by
          rw [List.map_map]
          have := takeSent_sum_le mc ((usableSentences text).take 5) 0
          simpa [pyLen, Function.comp] using this
        have hlen : ((takeSent mc 0 ((usableSentences text).take 5)).map String.data).length ≤ 5 := by
          rw [List.length_map]
          calc (takeSent mc 0 ((usableSentences text).take 5)).length
              ≤ ((usableSentences text).take 5).length := takeSent_length_le mc _ 0
            _ ≤ 5 := by simp
        omega
  · -- terminal punctuation
    intro hs
    unfold fallback_summary
    rw [if_neg ht, dif_neg hs]
    by_cases hp : takeSent mc 0 ((usableSentences text).take 5) = []
    · rw [if_pos hp]
      show (((usableSentences text).head hs).data.take mc ++ _).getLast? = some '.'
      by_cases hl : mc < ((usableSentences text).head hs).data.length
      · rw [if_pos hl, List.getLast?_append]
        rfl
      · rw [if_neg hl]
        rw [List.take_of_length_le (by omega)]
        simp only [List.append_nil]
        exact usableSentences_getLast (List.head_mem hs)
    · rw [if_neg hp]
      show (joinWith [' ']
        ((takeSent mc 0 ((usableSentences text).take 5)).map String.data)).getLast? = some '.'
      exact getLast_joinWith _ hp
        (fun s hsm => usableSentences_getLast (List.mem_of_mem_take (mem_takeSent hsm)))
  · -- degradation to truncation
    intro hshort
    unfold fallback_summary
    rw [if_neg ht, dif_pos (usableSentences_nil_of_short hshort)]

/-- Witness for the amended C8 at a concrete text and budget. -/
theorem C8_fallback_amended_witness :
    ("This sentence is long enough to count. Short tail" : String) ≠ "" ∧
    pyLen (fallback_summary "This sentence is long enough to count. Short tail" 160) ≤ 164 ∧
    (usableSentences "This sentence is long enough to count. Short tail" ≠ [] →
      (fallback_summary "This sentence is long enough to count. Short tail" 160).data.getLast? =
        some '.') :=
  ⟨by decide,
   (C8_fallback_amended "This sentence is long enough to count. Short tail" 160 (by decide)).1,
   (C8_fallback_amended "This sentence is long enough to count. Short tail" 160 (by decide)).2.1⟩

/-! ## `filter_articles.py`: the article classifier

`is_actual_article(data)` reads the `title`, `content`, `url` and `author`
fields of a JSON record.  Each field can be missing from the dict, be JSON
`null`, or hold a string; `dict.get(key, '')` only defaults a *missing* key,
so a `null` value flows into `.lower()` / `len()` and raises. -/

/-- Python `s.lower()` (per-character model). -/
def pyLower (s : String) : String := String.mk (s.data.map Char.toLower)

/-- A JSON field of an article record: missing, JSON `null`, or a string. -/
inductive PyField where
  | absent
  | null
  | str (s : String)
deriving DecidableEq

/-- An article record as read from a JSON file. -/
structure ArticleJson where
  title : PyField
  content : PyField
  url : PyField
  author : PyField

/-- `data.get(key, '').lower()`: an absent key defaults to `''`; a JSON
`null` value raises `AttributeError` (`None.lower()`). -/
def getLowerField : PyField → Except String String
  | .absent => .ok ""
  | .null => .error "AttributeError: NoneType object has no attribute lower"
  | .str s => .ok (pyLower s)

/-- `data.get('content', '')`: an absent key defaults to `''`; a JSON `null`
value raises at its first use (`len(None)` / `None.count(...)`) while the
definitive-indicator list is built. -/
def getContentField : PyField → Except String String
  | .absent => .ok ""
  | .null => .error "TypeError: object of type NoneType has no len"
  | .str s => .ok s

/-- `author.strip() if author else ''`: a falsy author (absent, null or the
empty string) normalizes to `''`. -/
def authorNorm : PyField → String
  | .absent => ""
  | .null => ""
  | .str s => pyStrip s

/-- The `definitive_non_articles` list (`filter_articles.py` lines 39-72),
over the lowered title `t` and the content string `c`. -/
def definitive_non_articles (t c : String) : List Bool :=
  [ pyIn "policy" t && (pyIn "privacy" t || pyIn "cookie" t),
    pyIn "terms of service" t || pyIn "terms and conditions" t,
    pyIn "live score" t || pyIn "live cricket score" t,
    pyIn "live updates" t,
    pyIn "live blog" t,
    pyIn "calculator" t,
    pyIn "checker" t,
    pyIn "interactive map" t,
    pyIn "charging stations map" t,
    pyIn "latest news on" t,
    pyIn "latest movies" t && pyIn "list of" t,
    pyIn "top 20" t && (pyIn "movies" t || pyIn "films" t),
    pyEndsWith t " news" && decide (pyLen c > 2000) && decide (pyCount c " - " > 10),
    pyIn "lease deals" t && decide (pyLen c < 500),
    decide (pyStrip t = "buying a car"),
    decide (pyStrip t = "selling a car"),
    decide (pyStrip t = "selling a van"),
    decide (pyCount c "Other topics in this category" > 0),
    decide (pyLen c < 150) ]

/-- The `strong_article_indicators` list (lines 79-117), over the lowered
title `t`, the content `c` and the normalized author `an`.  The first entry
embeds `author_normalized and author_normalized.lower() not in
['null','none','']`, which is only a boolean when `an` is non-empty;
`is_actual_article` models the resulting `sum` `TypeError` separately. -/
def strong_article_indicators (t c an : String) : List Bool :=
  [ !(pyLower an = "null" || pyLower an = "none" || pyLower an = ""),
    pyIn "desk" (pyLower an),
    pyIn "global" (pyLower an),
    decide ((pySplitWs an).length ≥ 2),
    decide (pyLen c > 1000) && decide (pyCount c "." > 25),
    decide (pyLen c > 2000),
    pyIn ": " t && decide ((splitChar ':' t.data).length = 2),
    decide (pyCount t "|" = 1) && pyIn "news" t,
    pyIn "how to" t || pyIn "how" (pySlice t 10),
    pyIn "why" (pySlice t 20),
    pyIn "what" (pySlice t 20) && pyIn "?" t,
    pyIn "should i" t,
    pyIn "vs" t && decide (pyLen c > 800),
    pyIn "tips" t && decide (pyLen c > 800),
    pyIn "guide" t && decide (pyLen c > 800),
    pyIn "everything you need to know" t,
    pyIn "for sale" t && decide (pyLen c > 800),
    pyIn "deals" t && decide (pyLen c > 600),
    pyIn "review" t && decide (pyLen c > 500),
    pyIn "compare" t && decide (pyLen c > 600),
    pyIn "lease" t && decide (pyLen c > 600),
    pyIn "used cars" t && decide (pyLen c > 500),
    pyIn "news" t && decide (pyLen c > 400),
    pyIn "clean air zone" t && decide (pyLen c > 300),
    decide (pyCount c "paragraph" = 0) && decide (pyCount c "section" < 3),
    decide (pyCount c "http" < 5) ]

/-- The `weak_article_indicators` list (lines 120-125), over the lowered
title `t`, the content `c` and the lowered url `u`. -/
def weak_article_indicators (t c u : String) : List Bool :=
  [ decide (pyLen c > 500),
    decide (pyCount c "." > 10),
    !(pyIn "list" t || pyIn "top 10" t || pyIn "top 20" t || pyIn "deals" t),
    pyIn "news" u && decide (pyLen c > 800) ]

/-- `analyze_content_structure` (lines 128-144). -/
def analyze_content_structure (c : String) : Bool × String :=
  if pyLen c < 200 then (false, "Too short")
  else if (splitChar '.' c.data).length < 5 then (false, "Too few sentences")
  else
    let navigation_words :=
      pyCount (pyLower c) "browse" + pyCount (pyLower c) "select" + pyCount (pyLower c) "filter"
    let article_words :=
      pyCount (pyLower c) "however" + pyCount (pyLower c) "therefore" + pyCount (pyLower c) "although"
    if navigation_words > article_words * 6 then (false, "Too much navigation language")
    else (true, "Good content structure")

/-- Python `sum` over a list of booleans. -/
def pySum (l : List Bool) : Nat := (l.map b2n).sum

/-- The scoring and decision logic of `is_actual_article` (lines 148-167),
reached only after the definitive check has not fired and the `sum` over the
strong indicators did not raise; total by construction. -/
def decideArticle (t u an c : String) : Bool × String :=
  let strong_score := pySum (strong_article_indicators t c an)
  let weak_score := pySum (weak_article_indicators t c u)
  let total_score := strong_score * 2 + weak_score
  let ca := analyze_content_structure c
  if 3 ≤ strong_score then
    (true, "Strong article (score: " ++ toString strong_score ++ "): Multiple strong indicators")
  else if 2 ≤ strong_score ∧ ca.1 = true then
    (true, "Likely article (score: " ++ toString strong_score ++ "): Strong indicators + good content")
  else if 1 ≤ strong_score ∧ 3 ≤ weak_score ∧ ca.1 = true then
    (true, "Probable article (total score: " ++ toString total_score ++ "): Combined indicators")
  else if an ≠ "" ∧ 1000 < pyLen c ∧ ca.1 = true then
    (true, "Article with author: " ++ pySlice an 30 ++ "... and substantial content")
  else if ca.1 = false then
    (false, "Non-article: " ++ ca.2)
  else if total_score < 2 then
    (false, "Non-article: Low article score (" ++ toString total_score ++ ")")
  else
    (false, "Non-article: Insufficient article indicators")

/-- The body of `is_actual_article` once the four fields have been read as
strings.  The definitive check returns first; otherwise, when the normalized
author is empty, `sum(strong_article_indicators)` raises a `TypeError`
because the list's first element is the string `''` (Python `0 + ''`). -/
def classifyStrings (t u an c : String) : Except String (Bool × String) :=
  if (definitive_non_articles t c).any (fun b => b) then
    .ok (false, "Definitive non-article: Policy, tool, category, or commercial page")
  else if an = "" then
    .error "TypeError: unsupported operand type(s) for +: int and str"
  else
    .ok (decideArticle t u an c)

/-- `is_actual_article` from `filter_articles.py`, with the source's
evaluation order for the raising field accesses: lowered title first, then
lowered url, then the content string. -/
def is_actual_article (d : ArticleJson) : Except String (Bool × String) :=
  match getLowerField d.title, getLowerField d.url, getContentField d.content with
  | .ok t, .ok u, .ok c => classifyStrings t u (authorNorm d.author) c
  | .error e, _, _ => .error e
  | .ok _, .error e, _ => .error e
  | .ok _, .ok _, .error e => .error e

/-! ### Claim C3 (corrected): totality of the classifier -/

/-- C3 counterexample: a record whose `title` field is JSON `null` makes
`is_actual_article` raise (`None.lower()`) instead of returning an
(accepted, reason) pair. -/
theorem C3_null_title_counterexample :
    is_actual_article ⟨PyField.null, PyField.absent, PyField.absent, PyField.absent⟩ =
      .error "AttributeError: NoneType object has no attribute lower" := rfl

/-- C3 (amended): `is_actual_article` returns a definite (accepted, reason)
pair for every record whose title, url and content fields are strings or
absent (not null) and whose author field normalizes to a non-empty string
(the author may not be absent, null, or whitespace: the `sum` over the strong
indicators raises a `TypeError` otherwise whenever the definitive check does
not fire first). -/
theorem C3_classifier_total_amended (d : ArticleJson)
    (ht : d.title ≠ PyField.null) (hu : d.url ≠ PyField.null)
    (hc : d.content ≠ PyField.null) (ha : authorNorm d.author ≠ "") :
    ∃ b r, is_actual_article d = .ok (b, r) := by
  obtain ⟨ft, fc, fu, fa⟩ := d
  have htEx : ∃ t, getLowerField ft = .ok t := by
    cases ft with
    | absent => exact ⟨"", rfl⟩
    | null => exact absurd rfl ht
    | str s => exact ⟨pyLower s, rfl⟩
  obtain ⟨t, hti⟩ := htEx
  have hu' : ∃ u, getLowerField fu = .ok u := by
    cases fu with
    | absent => exact ⟨"", rfl⟩
    | null => exact absurd rfl hu
    | str s => exact ⟨pyLower s, rfl⟩
  obtain ⟨u, hui⟩ := hu'
  have hc' : ∃ c, getContentField fc = .ok c := by
    cases fc with
    | absent => exact ⟨"", rfl⟩
    | null => exact absurd rfl hc
    | str s => exact ⟨s, rfl⟩
  obtain ⟨c, hci⟩ := hc'
  have hred : is_actual_article ⟨ft, fc, fu, fa⟩ = classifyStrings t u (authorNorm fa) c := by
    unfold is_actual_article
    rw [hti, hui, hci]
  rw [hred]
  unfold classifyStrings
  by_cases hdef : (definitive_non_articles t c).any (fun b => b) = true
  · rw [if_pos hdef]
    exact ⟨false, _, rfl⟩
  · rw [if_neg hdef, if_neg (by simpa using ha)]
    exact ⟨(decideArticle t u (authorNorm fa) c).1, (decideArticle t u (authorNorm fa) c).2,
      congrArg Except.ok Prod.mk.eta.symm⟩

/-- Witness for the amended C3 at a concrete record. -/
theorem C3_classifier_total_amended_witness :
    (PyField.str "Hello World" ≠ PyField.null) ∧
    (authorNorm (PyField.str "John Smith") ≠ "") ∧
    ∃ b r, is_actual_article
      ⟨PyField.str "Hello World", PyField.str "short content", PyField.absent,
        PyField.str "John Smith"⟩ = .ok (b, r) :=
  ⟨by decide, by decide,
   C3_classifier_total_amended
     ⟨PyField.str "Hello World", PyField.str "short content", PyField.absent,
       PyField.str "John Smith"⟩
     (by decide) (by decide) (by decide) (by decide)⟩

/-! ### Claim C5: short content is definitively rejected -/

/-- C5: for every record whose title and url are not null and whose content
reads as a string shorter than 150 characters (in particular the empty string
or an absent field), the classifier rejects with the definitive reason,
regardless of every other field; the definitive check short-circuits all
scoring (no author is required, even though scoring would raise on an empty
author). -/
theorem C5_short_content_rejected (d : ArticleJson) (c : String)
    (ht : d.title ≠ PyField.null) (hu : d.url ≠ PyField.null)
    (hc : getContentField d.content = .ok c) (hlen : pyLen c < 150) :
    is_actual_article d =
      .ok (false, "Definitive non-article: Policy, tool, category, or commercial page") := by
  obtain ⟨ft, fc, fu, fa⟩ := d
  have ht' : ∃ t, getLowerField ft = .ok t := by
    cases ft with
    | absent => exact ⟨"", rfl⟩
    | null => exact absurd rfl ht
    | str s => exact ⟨pyLower s, rfl⟩
  obtain ⟨t, hti⟩ := ht'
  have hu' : ∃ u, getLowerField fu = .ok u := by
    cases fu with
    | absent => exact ⟨"", rfl⟩
    | null => exact absurd rfl hu
    | str s => exact ⟨pyLower s, rfl⟩
  obtain ⟨u, hui⟩ := hu'
  have hred : is_actual_article ⟨ft, fc, fu, fa⟩ = classifyStrings t u (authorNorm fa) c := by
    unfold is_actual_article
    rw [hti, hui, hc]
  have hany : (definitive_non_articles t c).any (fun b => b) = true := by
    have h150 : decide (pyLen c < 150) = true := decide_eq_true hlen
    unfold definitive_non_articles
    simp [h150]
  rw [hred]
  unfold classifyStrings
  rw [if_pos hany]

/-- Witness for C5 at a concrete short record. -/
theorem C5_short_content_rejected_witness :
    getContentField (PyField.str "too short") = .ok "too short" ∧
    pyLen "too short" < 150 ∧
    is_actual_article
      ⟨PyField.str "Anything Here", PyField.str "too short", PyField.absent, PyField.null⟩ =
      .ok (false, "Definitive non-article: Policy, tool, category, or commercial page") :=
  ⟨rfl, by decide,
   C5_short_content_rejected
     ⟨PyField.str "Anything Here", PyField.str "too short", PyField.absent, PyField.null⟩
     "too short" (by decide) (by decide) rfl (by decide)⟩

/-! ### Claim C6 (corrected): strong-signal acceptance -/

theorem hasSub_cons (sub : List Char) (c : Char) (l : List Char) :
    hasSub sub (c :: l) = (sub.isPrefixOf (c :: l) || hasSub sub l) := by
  unfold hasSub
  rw [List.tails_cons, List.any_cons]

theorem subSplitGo_of_not_hasSub {sub : List Char} :
    ∀ (fuel : Nat) (l : List Char), hasSub sub l = false → subSplitGo sub fuel l = [l] := by
  intro fuel
  induction fuel with
  | zero =>
    intro l h
    cases l <;> rfl
  | succ fuel ih =>
    intro l h
    cases l with
    | nil => rfl
    | cons c rest =>
      rw [hasSub_cons] at h
      have h1 : sub.isPrefixOf (c :: rest) = false := by
        cases hp : sub.isPrefixOf (c :: rest)
        · rfl
        · rw [hp] at h; simp at h
      have h2 : hasSub sub rest = false := by
        cases hr : hasSub sub rest
        · rfl
        · rw [hr] at h; simp at h
      show subSplitGo sub (fuel + 1) (c :: rest) = [c :: rest]
      unfold subSplitGo
      rw [if_neg (by simp [h1])]
      rw [ih rest h2]

theorem pyCount_eq_zero_of_not_hasSub {s sub : String}
    (h : hasSub sub.data s.data = false) : pyCount s sub = 0 := by
  unfold pyCount subSplit
  rw [subSplitGo_of_not_hasSub _ _ h]
  rfl

theorem subSplitGo_ne_nil {sub : List Char} :
    ∀ (fuel : Nat) (l : List Char), subSplitGo sub fuel l ≠ [] := by
  intro fuel l
  match fuel, l with
  | fuel, [] => cases fuel <;> simp [subSplitGo]
  | 0, c :: rest => simp [subSplitGo]
  | fuel + 1, c :: rest =>
    unfold subSplitGo
    by_cases hcond : sub ≠ [] ∧ sub.isPrefixOf (c :: rest)
    · rw [if_pos hcond]; simp
    · rw [if_neg hcond]
      cases hrec : subSplitGo sub fuel rest <;> simp

theorem pyCount_pos_of_isPrefixOf {s sub : String} (hsub : sub.data ≠ [])
    (h : sub.data.isPrefixOf s.data = true) : 0 < pyCount s sub := by
  unfold pyCount subSplit
  cases hd : s.data with
  | nil =>
    rw [hd] at h
    cases hsd : sub.data with
    | nil => exact absurd hsd hsub
    | cons a as => rw [hsd] at h; simp [List.isPrefixOf] at h
  | cons c rest =>
    rw [hd] at h
    simp only [List.length_cons]
    show 0 < (subSplitGo sub.data (rest.length + 1) (c :: rest)).length - 1
    unfold subSplitGo
    rw [if_pos ⟨hsub, h⟩]
    have hne := @subSplitGo_ne_nil sub.data rest.length
      ((c :: rest).drop sub.data.length)
    have hlen := List.length_pos.mpr hne
    simp only [List.length_cons]
    omega

theorem no_O_sub_replicate (s : List Char) :
    ∀ k, hasSub ('O' :: s) (List.replicate k 'a') = false := by
  intro k
  induction k with
  | zero => rfl
  | succ k ih =>
    rw [List.replicate_succ, hasSub_cons, ih]
    have h1 : ('O' :: s).isPrefixOf ('a' :: List.replicate k 'a') = false := by
      show (('O' == 'a') && s.isPrefixOf (List.replicate k 'a')) = false
      rw [show ('O' == 'a') = false from by decide]
      rfl
    rw [h1]
    rfl

/-- C6 counterexample: a record with the two-word author `"John Smith"`,
title `"X: Y"` and a content of exactly 2500 characters is *not* always
accepted: when the content contains the template-residue phrase
`"Other topics in this category"`, the definitive check fires first and the
record is rejected. -/
theorem C6_template_content_counterexample :
    pyLen (String.mk ("Other topics in this category".data ++ List.replicate 2471 'a')) = 2500 ∧
    (pySplitWs (pyStrip "John Smith")).length = 2 ∧
    is_actual_article
      ⟨PyField.str "X: Y",
        PyField.str (String.mk ("Other topics in this category".data ++ List.replicate 2471 'a')),
        PyField.absent, PyField.str "John Smith"⟩ =
      .ok (false, "Definitive non-article: Policy, tool, category, or commercial page") := by
  refine ⟨?_, by decide, ?_⟩
  · show ("Other topics in this category".data ++ List.replicate 2471 'a').length = 2500
    simp only [List.length_append, List.length_replicate]
    decide
  · have hpref : ("Other topics in this category".data).isPrefixOf
        (("Other topics in this category".data ++ List.replicate 2471 'a')) = true := by
      rw [List.isPrefixOf_iff_prefix]
      exact ⟨List.replicate 2471 'a', rfl⟩
    have hcnt : 0 < pyCount
        (String.mk ("Other topics in this category".data ++ List.replicate 2471 'a'))
        "Other topics in this category" :=
      pyCount_pos_of_isPrefixOf (by decide) hpref
    have hred : is_actual_article
        ⟨PyField.str "X: Y",
          PyField.str (String.mk ("Other topics in this category".data ++ List.replicate 2471 'a')),
          PyField.absent, PyField.str "John Smith"⟩ =
        classifyStrings "x: y" "" (pyStrip "John Smith")
          (String.mk ("Other topics in this category".data ++ List.replicate 2471 'a')) := by
      have hlow : pyLower "X: Y" = "x: y" := by decide
      unfold is_actual_article
      simp only [getLowerField, getContentField, authorNorm, hlow]
    rw [hred]
    have hany : (definitive_non_articles "x: y"
        (String.mk ("Other topics in this category".data ++ List.replicate 2471 'a'))).any
        (fun b => b) = true := by
      have e18 : decide (pyCount
          (String.mk ("Other topics in this category".data ++ List.replicate 2471 'a'))
          "Other topics in this category" > 0) = true := decide_eq_true hcnt
      unfold definitive_non_articles
      simp only [List.any_cons, List.any_nil, e18]
      simp only [Bool.or_true, Bool.true_or]
    unfold classifyStrings
    rw [if_pos hany]

/-- C6 (amended): for every record with title `"X: Y"`, a two-word author and
a 2500-character content that does not contain the template-residue phrase
`"Other topics in this category"` (otherwise the definitive check fires,
see the counterexample), the classifier accepts with a strong-signal reason,
the strong-signal count being at least 3. -/
theorem C6_strong_signal_acceptance (author content : String)
    (ha : 2 ≤ (pySplitWs (pyStrip author)).length)
    (hc : pyLen content = 2500)
    (hnot : pyCount content "Other topics in this category" = 0) :
    3 ≤ pySum (strong_article_indicators "x: y" content (pyStrip author)) ∧
    ∃ r, is_actual_article
      ⟨PyField.str "X: Y", PyField.str content, PyField.absent, PyField.str author⟩ =
      .ok (true, r) := by
  have hstrong : 3 ≤ pySum (strong_article_indicators "x: y" content (pyStrip author)) := by
    have h4 : decide ((pySplitWs (pyStrip author)).length ≥ 2) = true := decide_eq_true ha
    have h6 : decide (pyLen content > 2000) = true :=
      decide_eq_true (show pyLen content > 2000 by omega)
    unfold strong_article_indicators pySum
    simp only [List.map_cons, List.sum_cons, List.map_nil, List.sum_nil, h4, h6]
    have h7 : (pyIn ": " "x: y" &&
        decide ((splitChar ':' ("x: y" : String).data).length = 2)) = true := by decide
    rw [h7]
    simp only [show b2n true = 1 from rfl]
    omega
  refine ⟨hstrong, ?_⟩
  have hred : is_actual_article
      ⟨PyField.str "X: Y", PyField.str content, PyField.absent, PyField.str author⟩ =
      classifyStrings "x: y" "" (pyStrip author) content := by
    have hlow : pyLower "X: Y" = "x: y" := by decide
    unfold is_actual_article
    simp only [getLowerField, getContentField, authorNorm, hlow]
  have hdef : (definitive_non_articles "x: y" content).any (fun b => b) = false := by
    have e13 : pyEndsWith "x: y" " news" = false := by decide
    have e14 : pyIn "lease deals" "x: y" = false := by decide
    have e18 : decide (pyCount content "Other topics in this category" > 0) = false := by
      rw [hnot]; decide
    have e19 : decide (pyLen content < 150) = false := by rw [hc]; decide
    unfold definitive_non_articles
    simp only [List.any_cons, List.any_nil, e13, e14, e18, e19, Bool.false_and,
      Bool.and_false, Bool.or_false, Bool.false_or]
    decide
  have han : pyStrip author ≠ "" := by
    intro h0
    rw [h0] at ha
    have hempty : pySplitWs "" = [] := rfl
    rw [hempty] at ha
    simp at ha
  rw [hred]
  unfold classifyStrings
  rw [if_neg (by rw [hdef]; simp), if_neg (by simpa using han)]
  unfold decideArticle
  simp only
  rw [if_pos hstrong]
  exact ⟨_, rfl⟩

/-- Witness for the amended C6 at a concrete author and 2500-character
content. -/
theorem C6_strong_signal_acceptance_witness :
    2 ≤ (pySplitWs (pyStrip "John Smith")).length ∧
    pyLen (String.mk (List.replicate 2500 'a')) = 2500 ∧
    pyCount (String.mk (List.replicate 2500 'a')) "Other topics in this category" = 0 ∧
    (3 ≤ pySum (strong_article_indicators "x: y" (String.mk (List.replicate 2500 'a'))
        (pyStrip "John Smith")) ∧
     ∃ r, is_actual_article
       ⟨PyField.str "X: Y", PyField.str (String.mk (List.replicate 2500 'a')),
         PyField.absent, PyField.str "John Smith"⟩ = .ok (true, r)) := by
  have hcnt : pyCount (String.mk (List.replicate 2500 'a'))
      "Other topics in this category" = 0 := by
    apply pyCount_eq_zero_of_not_hasSub
    show hasSub "Other topics in this category".data (List.replicate 2500 'a') = false
    have hdata : "Other topics in this category".data =
        'O' :: "ther topics in this category".data := rfl
    rw [hdata]
    exact no_O_sub_replicate _ 2500
  have hlen : pyLen (String.mk (List.replicate 2500 'a')) = 2500 := by
    show (List.replicate 2500 'a').length = 2500
    simp only [List.length_replicate]
  exact ⟨by decide, hlen, hcnt,
    C6_strong_signal_acceptance "John Smith" (String.mk (List.replicate 2500 'a'))
      (by decide) hlen hcnt⟩

/-! ## `scraper/save.py` and `scraper/s3_upload.py`: persistence

A local output directory is modelled as the list of file names it holds; the
remote bucket as the list of object keys it holds.  The SHA-1 short hash of
`generate_filename_from_url` is external (`hashlib`) and is a parameter. -/

/-- `generate_filename_from_url`: `"article-"` followed by the first 8 hex
digits of the SHA-1 of the url (the hash itself is a parameter). -/
def generate_filename_from_url (urlHash : String → String) (url : String) : String :=
  "article-" ++ urlHash url

/-- Outcome of the remote write for one record: upload succeeded, returned
failure, or raised an exception (caught inside `write_json_per_article`). -/
inductive S3Outcome where
  | ok
  | failed
  | raised
deriving DecidableEq

/-- The collision loop of `_save_article_locally` (source lines 154-160):
try `name`; while it exists, try `base-1.json`, `base-2.json`, ...  The
Python `while` loop is unbounded; `fuel` bounds the modelled search, with
`none` standing for a search that did not finish within the fuel. -/
def collideLoop (fs : List String) (base : String) : Nat → String → Nat → Option String
  | 0, _, _ => none
  | fuel + 1, name, counter =>
    if name ∈ fs then
      collideLoop fs base fuel (base ++ "-" ++ toString counter ++ ".json") (counter + 1)
    else some name

/-- The CSV append of `_append_to_csv`: ensure the shared accumulator file
exists in the directory (the write itself always succeeds in the model). -/
def addCsv (fs : List String) : List String :=
  if "all_articles.csv" ∈ fs then fs else "all_articles.csv" :: fs

/-- `_save_article_locally` from `scraper/save.py`: recompute the base slug
(`json_filename.replace('.json','')`), resolve name collisions by numeric
suffix, write the JSON file and append to the CSV.  The result carries the
success flag, the name actually written, and the new directory contents. -/
def save_article_locally (fuel : Nat) (fs : List String) (json_filename : String) :
    Option (Bool × String × List String) :=
  match collideLoop fs (pyReplace json_filename ".json" "") fuel json_filename 1 with
  | none => none
  | some name => some (true, name, addCsv (name :: fs))

/-- `write_json_per_article` from `scraper/save.py`.  `use_s3 = none` models
the auto-detection (`S3_AVAILABLE and is_s3_configured()`).  In S3 mode the
function uploads only: the local directory is untouched and a failed or
raising upload is reported as `False` with no local fallback.  Otherwise it
saves locally. -/
def write_json_per_article (urlHash : String → String) (fuel : Nat)
    (s3Available s3Configured : Bool) (s3 : S3Outcome)
    (title url : String) (use_s3 : Option Bool) (fs : List String) :
    Option (Bool × List String) :=
  let filename := if title ≠ "" then sanitize_filename title 100
                  else generate_filename_from_url urlHash url
  let json_filename := filename ++ ".json"
  let use_s3v := use_s3.getD (s3Available && s3Configured)
  if use_s3v && s3Available then
    match s3 with
    | .ok => some (true, fs)
    | .failed => some (false, fs)
    | .raised => some (false, fs)
  else
    match save_article_locally fuel fs json_filename with
    | none => none
    | some (ok, _, fs') => some (ok, fs')

/-- One buffered record at save time: its title, url, and the outcome its
remote write would produce. -/
structure SaveRecord where
  title : String
  url : String
  s3 : S3Outcome

/-- `save_filtered_articles` from `spiders/homepage_spider.py` (lines
301-346): force S3 mode, raise when the S3 module is unavailable or S3 is
unconfigured, then save each record in turn counting successes; a record
whose save fails is logged and skipped, and the loop continues. -/
def save_filtered_articles (urlHash : String → String) (fuel : Nat)
    (s3Available s3Configured : Bool) (records : List SaveRecord)
    (fs : List String) : Except String (Nat × List String) :=
  if s3Available = false then .error "S3 module not available"
  else if s3Configured = false then .error "S3 configuration required but not found"
  else .ok (records.foldl
    (fun acc r =>
      match write_json_per_article urlHash fuel s3Available s3Configured r.s3
          r.title r.url (some true) acc.2 with
      | some (true, fs') => (acc.1 + 1, fs')
      | some (false, fs') => (acc.1, fs')
      | none => acc) (0, fs))

/-- `prefix.strip('/')` from the `S3Uploader` constructor. -/
def stripSlashes (s : String) : String := String.mk (stripAll (fun c => c = '/') s.data)

/-- The object key `upload_article_json` writes to (`s3_upload.py` lines
62-80): the slash-stripped prefix joined with the file name, `.json` appended
when missing.  No collision check of any kind. -/
def s3_article_key (pfx filename : String) : String :=
  let fn := if pyEndsWith filename ".json" then filename else filename ++ ".json"
  stripSlashes pfx ++ "/" ++ fn

/-- `upload_article_json` as a state transition on the bucket contents:
returns the key written and the new key set (`put_object` creates or
overwrites). -/
def upload_article_json (pfx filename : String) (bucket : List String) :
    String × List String :=
  let key := s3_article_key pfx filename
  (key, if key ∈ bucket then bucket else key :: bucket)

/-! ### Claim C1: remote failure gives no local fallback -/

/-- C1: with the remote sink selected and available, a record whose remote
write fails or raises makes `write_json_per_article` return failure with the
local directory untouched; and `save_filtered_articles` processes every
record, counts exactly the successful remote writes as saved, and never
writes to the local directory. -/
theorem C1_remote_failure_no_local_fallback (urlHash : String → String) (fuel : Nat) :
    (∀ (title url : String) (s3 : S3Outcome) (fs : List String), s3 ≠ S3Outcome.ok →
      write_json_per_article urlHash fuel true true s3 title url (some true) fs =
        some (false, fs)) ∧
    (∀ (records : List SaveRecord) (fs : List String),
      save_filtered_articles urlHash fuel true true records fs =
        .ok ((records.filter (fun r => decide (r.s3 = S3Outcome.ok))).length, fs)) := by
  have hwrite : ∀ (s3 : S3Outcome) (title url : String) (fs : List String),
      write_json_per_article urlHash fuel true true s3 title url (some true) fs =
        match s3 with
        | S3Outcome.ok => some (true, fs)
        | S3Outcome.failed => some (false, fs)
        | S3Outcome.raised => some (false, fs) := by
    intro s3 title url fs
    unfold write_json_per_article
    rfl
  constructor
  · intro title url s3 fs hs3
    rw [hwrite]
    cases s3 with
    | ok => exact absurd rfl hs3
    | failed => rfl
    | raised => rfl
  · intro records fs
    unfold save_filtered_articles
    rw [if_neg (by simp), if_neg (by simp)]
    have aux : ∀ (rs : List SaveRecord) (n : Nat) (fs0 : List String),
        rs.foldl
          (fun acc r =>
            match write_json_per_article urlHash fuel true true r.s3
                r.title r.url (some true) acc.2 with
            | some (true, fs') => (acc.1 + 1, fs')
            | some (false, fs') => (acc.1, fs')
            | none => acc) (n, fs0) =
        (n + (rs.filter (fun r => decide (r.s3 = S3Outcome.ok))).length, fs0) := by
      intro rs
      induction rs with
      | nil => intro n fs0; simp
      | cons r rest ih =>
        intro n fs0
        rw [List.foldl_cons]
        cases hs : r.s3 with
        | ok =>
          rw [hwrite]
          simp only [hs, List.filter_cons, hs]
          rw [ih (n + 1) fs0]
          simp [hs]
          omega
        | failed =>
          rw [hwrite]
          simp only [hs]
          rw [ih n fs0]
          simp [List.filter_cons, hs]
        | raised =>
          rw [hwrite]
          simp only [hs]
          rw [ih n fs0]
          simp [List.filter_cons, hs]
    rw [aux records 0 fs]
    simp

/-- Witness for C1 at a concrete failing record. -/
theorem C1_remote_failure_no_local_fallback_witness :
    S3Outcome.failed ≠ S3Outcome.ok ∧
    write_json_per_article (fun _ => "deadbeef") 8 true true S3Outcome.failed
      "A Title" "http://a.com/x" (some true) ["existing.json"] =
      some (false, ["existing.json"]) :=
  ⟨by decide,
   (C1_remote_failure_no_local_fallback (fun _ => "deadbeef") 8).1
     "A Title" "http://a.com/x" S3Outcome.failed ["existing.json"] (by decide)⟩

/-! ### Claim C2 (corrected): per-destination key uniqueness -/

/-- C2 counterexample: the remote sink performs no collision resolution.
Uploading two records with the same derived slug under the same prefix
writes the very same object key twice (the second overwrites the first),
not a distinct `-1`-suffixed key. -/
theorem C2_remote_same_key_counterexample :
    (upload_article_json "articles" "my-story"
        (upload_article_json "articles" "my-story" []).2).1 =
      (upload_article_json "articles" "my-story" []).1 ∧
    (upload_article_json "articles" "my-story"
        (upload_article_json "articles" "my-story" []).2).1 ≠
      "articles/my-story-1.json" := by
  constructor
  · rfl
  · decide

theorem mem_addCsv {fs : List String} {x : String} (h : x ∈ fs) : x ∈ addCsv fs := by
  unfold addCsv
  by_cases hc : "all_articles.csv" ∈ fs
  · rwa [if_pos hc]
  · rw [if_neg hc]
    exact List.mem_cons_of_mem _ h

theorem mem_of_mem_addCsv {fs : List String} {x : String}
    (h : x ∈ addCsv fs) (hx : x ≠ "all_articles.csv") : x ∈ fs := by
  unfold addCsv at h
  by_cases hc : "all_articles.csv" ∈ fs
  · rwa [if_pos hc] at h
  · rw [if_neg hc] at h
    rcases List.mem_cons.mp h with h | h
    · exact absurd h hx
    · exact h

/-- C2 (amended): numeric-suffix key uniqueness holds for the local sink
only.  In a directory holding neither `slug ++ ".json"` nor
`slug ++ "-1.json"`, the first record written for that slug gets the
un-suffixed name `slug ++ ".json"`, and a second record with the same slug
gets the distinct suffixed name `slug ++ "-1.json"`.  (The remote sink
overwrites instead: see the counterexample.) -/
theorem C2_local_suffix_uniqueness (fs : List String) (slug : String) (fuel : Nat)
    (hfuel : 2 ≤ fuel)
    (hbase : pyReplace (slug ++ ".json") ".json" "" = slug)
    (hjson : slug ++ ".json" ∉ fs)
    (hone : slug ++ "-1.json" ∉ fs) :
    ∃ fs₁,
      save_article_locally fuel fs (slug ++ ".json") =
        some (true, slug ++ ".json", fs₁) ∧
      (∃ fs₂, save_article_locally fuel fs₁ (slug ++ ".json") =
        some (true, slug ++ "-1.json", fs₂)) ∧
      slug ++ ".json" ≠ slug ++ "-1.json" := by
  obtain ⟨f, rfl⟩ : ∃ f, fuel = f + 2 := ⟨fuel - 2, by omega⟩
  have hname1 : slug ++ "-" ++ toString (1 : Nat) ++ ".json" = slug ++ "-1.json" := by
    rw [String.append_assoc, String.append_assoc]
    rfl
  have hne_names : slug ++ ".json" ≠ slug ++ "-1.json" := by
    intro hcon
    have hlen := congrArg String.length hcon
    rw [String.length_append, String.length_append,
      show (".json" : String).length = 5 from rfl,
      show ("-1.json" : String).length = 7 from rfl] at hlen
    omega
  have hne_csv : slug ++ "-1.json" ≠ "all_articles.csv" := by
    intro hcon
    have hdata := congrArg String.data hcon
    rw [String.data_append] at hdata
    have hlast := congrArg List.getLast? hdata
    rw [List.getLast?_append,
      show ("-1.json" : String).data.getLast? = some 'n' from rfl] at hlast
    have hor : (some 'n').or slug.data.getLast? = some 'n' := rfl
    rw [hor] at hlast
    exact absurd hlast (by decide)
  have hsave1 : save_article_locally (f + 2) fs (slug ++ ".json") =
      some (true, slug ++ ".json", addCsv ((slug ++ ".json") :: fs)) := by
    unfold save_article_locally
    rw [hbase]
    unfold collideLoop
    rw [if_neg hjson]
  have hmem1 : slug ++ ".json" ∈ addCsv ((slug ++ ".json") :: fs) :=
    mem_addCsv (List.mem_cons_self _ _)
  have hnot1 : slug ++ "-1.json" ∉ addCsv ((slug ++ ".json") :: fs) := by
    intro hcon
    rcases List.mem_cons.mp (mem_of_mem_addCsv hcon hne_csv) with h | h
    · exact hne_names h.symm
    · exact hone h
  have hsave2 : save_article_locally (f + 2) (addCsv ((slug ++ ".json") :: fs))
      (slug ++ ".json") =
      some (true, slug ++ "-1.json",
        addCsv ((slug ++ "-1.json") :: addCsv ((slug ++ ".json") :: fs))) := by
    unfold save_article_locally
    rw [hbase]
    unfold collideLoop
    rw [if_pos hmem1]
    unfold collideLoop
    rw [hname1, if_neg hnot1]
  exact ⟨_, hsave1, ⟨_, hsave2⟩, hne_names⟩

/-- Witness for the amended C2 at a concrete slug and empty directory. -/
theorem C2_local_suffix_uniqueness_witness :
    pyReplace ("my-story" ++ ".json") ".json" "" = "my-story" ∧
    ∃ fs₁,
      save_article_locally 2 [] ("my-story" ++ ".json") =
        some (true, "my-story" ++ ".json", fs₁) ∧
      (∃ fs₂, save_article_locally 2 fs₁ ("my-story" ++ ".json") =
        some (true, "my-story" ++ "-1.json", fs₂)) ∧
      "my-story" ++ ".json" ≠ "my-story" ++ "-1.json" :=
  ⟨by decide,
   C2_local_suffix_uniqueness [] "my-story" 2 (by decide) (by decide)
     (by decide) (by decide)⟩

/-! ## URL resolution (urllib, modelled) and `scraper/link_filters.py`

`link_filters.py` resolves raw links with `urllib.parse.urljoin` and reads
URL components with `urllib.parse.urlparse`; both are Python standard
library, outside this repository, and are modelled here from the spec. -/

/-- Components of a parsed URL. -/
structure UrlParts where
  scheme : String
  netloc : String
  path : String
  query : String
  frag : String

/-- The part of a URL before its query and fragment (everything before the
first `#`, then before the first `?`): the scheme, network location and path
live here. -/
def preOf (s : List Char) : List Char :=
  (s.takeWhile (fun c => c ≠ '#')).takeWhile (fun c => c ≠ '?')

/-- The query: after the first `?` of the part before the fragment. -/
def queryOf (s : List Char) : List Char :=
  ((s.takeWhile (fun c => c ≠ '#')).dropWhile (fun c => c ≠ '?')).drop 1

/-- The fragment: after the first `#`. -/
def fragOf (s : List Char) : List Char :=
  (s.dropWhile (fun c => c ≠ '#')).drop 1

/-- Characters a URL scheme may contain after its leading letter. -/
def schemeChar (c : Char) : Bool := c.isAlphanum || c = '+' || c = '-' || c = '.'

/-- A non-empty letter-led run of scheme characters. -/
def validScheme : List Char → Bool
  | [] => false
  | c :: rest => c.isAlpha && rest.all schemeChar

/-- Split a scheme off the pre-query part: `(scheme, rest)` when a valid
scheme precedes the first `:`, `([], pre)` otherwise. -/
def schemeSplit (pre : List Char) : List Char × List Char :=
  if pre.any (fun c => c = ':') && validScheme (pre.takeWhile (fun c => c ≠ ':')) then
    (pre.takeWhile (fun c => c ≠ ':'), (pre.dropWhile (fun c => c ≠ ':')).drop 1)
  else ([], pre)

/-- Split a network location off the post-scheme part: after a leading `//`,
the netloc runs to the next `/`; otherwise there is none. -/
def netlocSplit : List Char → List Char × List Char
  | '/' :: '/' :: r => (r.takeWhile (fun c => c ≠ '/'), r.dropWhile (fun c => c ≠ '/'))
  | rest => ([], rest)

/-- Modelled from the spec: `urllib.parse.urlparse` as used by
LinkCandidateFilter (host, path and query components of a URL; "every
surviving candidate shares network location (host) with the homepage"). -/
def parseUrl (url : String) : UrlParts :=
  ⟨String.mk (schemeSplit (preOf url.data)).1,
   String.mk (netlocSplit ((schemeSplit (preOf url.data)).2)).1,
   String.mk (netlocSplit ((schemeSplit (preOf url.data)).2)).2,
   String.mk (queryOf url.data),
   String.mk (fragOf url.data)⟩

/-- Modelled from the spec: `urllib.parse.urlunsplit`-style reassembly —
`scheme:` when a scheme is present, `//netloc` when a host is present, then
the path. -/
def unsplitUrl (scheme netloc path : String) : String :=
  (if scheme ≠ "" then scheme ++ ":" else "") ++
    (if netloc ≠ "" then "//" ++ netloc else "") ++ path

/-- The directory of a base path for relative resolution: up to and
including its last `/`, or `/` when it has none. -/
def dirOf (path : String) : String :=
  if path.data.contains '/' then String.mk (rstripP (fun c => c ≠ '/') path.data)
  else "/"

/-- Modelled from the spec: `urllib.parse.urljoin` — "for each raw link,
resolve to absolute form against homepage_url".  A link with its own scheme
stands alone; a `//host/...` link adopts the base scheme; an absolute-path
link adopts the base scheme and host; any other link resolves against the
directory of the base path; the empty link returns the base. -/
def urljoin (base link : String) : String :=
  if link = "" then base
  else if (parseUrl link).scheme ≠ "" then link
  else if link.data.take 2 = ['/', '/'] then
    unsplitUrl (parseUrl base).scheme "" link
  else if link.data.head? = some '/' then
    unsplitUrl (parseUrl base).scheme (parseUrl base).netloc link
  else
    unsplitUrl (parseUrl base).scheme (parseUrl base).netloc
      (dirOf (parseUrl base).path ++ link)

/-- The tracking query-parameter keys stripped by `_clean_url`
(`link_filters.py` lines 60-63). -/
def tracking_params : List String :=
  ["utm_source", "utm_medium", "utm_campaign", "utm_term", "utm_content",
   "fbclid", "gclid", "ref", "source", "campaign", "_ga", "mc_cid"]

/-- A query parameter survives `_clean_url` when it contains `=` and its
lowered key (the part before the first `=`) is not a tracking key. -/
def keepParam (p : List Char) : Bool :=
  p.contains '=' &&
    !(tracking_params.contains
      (String.mk ((p.takeWhile (fun c => c ≠ '=')).map Char.toLower)))

/-- The query parameters `_clean_url` keeps, in order (lines 65-71). -/
def keptParams (url : String) : List (List Char) :=
  if (parseUrl url).query ≠ "" then
    (splitChar '&' (parseUrl url).query.data).filter keepParam
  else []

/-- `_clean_url` from `scraper/link_filters.py`: cut at the first `#` then
at the first `?` (lines 57, 74-76), re-appending the surviving query
parameters joined with `&` when any remain. -/
def clean_url (url : String) : String :=
  if keptParams url ≠ [] then
    String.mk (preOf url.data ++ '?' :: joinWith ['&'] (keptParams url))
  else String.mk (preOf url.data)

/-! ### The regular expressions of `_looks_like_article`

A small token language (literal, character class, non-empty repetition, end
anchor) covers every pattern in `article_patterns` and `exclude_patterns`;
the matcher mirrors `re.search`/`re.match` with backtracking, fuel-driven so
that it stays kernel-reducible (the fuel dominates the measure, so the
exhausted-fuel branch is never reached from `matchToks`). -/

/-- One regex token. -/
inductive RTok where
  | lit (c : Char)
  | cls (p : Char → Bool)
  | rep1 (p : Char → Bool)
  | eos

/-- Fuel-driven matcher: does some prefix of `cs` match the token list? -/
def matchToksGo : Nat → List RTok → List Char → Bool
  | 0, toks, _ => toks.isEmpty
  | _ + 1, [], _ => true
  | fuel + 1, .eos :: rest, cs => cs.isEmpty && matchToksGo fuel rest cs
  | _ + 1, .lit _ :: _, [] => false
  | fuel + 1, .lit a :: rest, c :: cs => c = a && matchToksGo fuel rest cs
  | _ + 1, .cls _ :: _, [] => false
  | fuel + 1, .cls p :: rest, c :: cs => p c && matchToksGo fuel rest cs
  | _ + 1, .rep1 _ :: _, [] => false
  | fuel + 1, .rep1 p :: rest, c :: cs =>
    p c && (matchToksGo fuel rest cs || matchToksGo fuel (.rep1 p :: rest) cs)

/-- Prefix match of a token list against a character list. -/
def matchToks (toks : List RTok) (cs : List Char) : Bool :=
  matchToksGo (toks.length + cs.length) toks cs

/-- `re.search`: some suffix position matches. -/
def reSearch (toks : List RTok) (s : String) : Bool :=
  s.data.tails.any (fun t => matchToks toks t)

/-- A pattern made of literal characters. -/
def litToks (s : String) : List RTok := s.data.map RTok.lit

/-- The class `\d`. -/
def digitTok : RTok := .cls Char.isDigit

/-- The class `[/?]`. -/
def slashQ : RTok := .cls (fun c => c = '/' || c = '?')

/-- The class `[-_]`. -/
def dashUnd (c : Char) : Bool := c = '-' || c = '_'

/-- `article_patterns` from `_looks_like_article` (lines 95-117). -/
def article_patterns : List (List RTok) :=
  [ litToks "/news/", litToks "/article/", litToks "/articles/",
    litToks "/story/", litToks "/stories/", litToks "/blog/",
    litToks "/post/", litToks "/posts/", litToks "/review/",
    litToks "/reviews/", litToks "/opinion/", litToks "/opinions/",
    litToks "/feature/", litToks "/features/", litToks "/analysis/",
    litToks "/commentary/", litToks "/editorial/",
    litToks "/20" ++ [digitTok, digitTok] ++ litToks "/",
    litToks "/" ++ [digitTok, digitTok, digitTok, digitTok] ++ litToks "/" ++
      [digitTok, digitTok] ++ litToks "/",
    litToks "/" ++ [digitTok, digitTok, digitTok, digitTok] ++ litToks "-" ++
      [digitTok, digitTok] ++ litToks "-" ++ [digitTok, digitTok] ++ litToks "/",
    [RTok.cls dashUnd, RTok.rep1 wordc, RTok.cls dashUnd, RTok.rep1 wordc,
     RTok.cls dashUnd, RTok.rep1 wordc] ]

/-- `exclude_patterns` from `_looks_like_article` (lines 120-151). -/
def exclude_patterns : List (List RTok) :=
  [ litToks "/live" ++ [slashQ], litToks "/video" ++ [slashQ],
    litToks "/videos" ++ [slashQ], litToks "/photo" ++ [slashQ],
    litToks "/photos" ++ [slashQ], litToks "/gallery" ++ [slashQ],
    litToks "/galleries" ++ [slashQ], litToks "/tag" ++ [slashQ],
    litToks "/tags" ++ [slashQ], litToks "/category" ++ [slashQ],
    litToks "/categories" ++ [slashQ], litToks "/topic" ++ [slashQ],
    litToks "/topics" ++ [slashQ], litToks "/author" ++ [slashQ],
    litToks "/authors" ++ [slashQ], litToks "/search" ++ [slashQ],
    litToks "/contact" ++ [slashQ], litToks "/about" ++ [slashQ],
    litToks "/privacy" ++ [slashQ], litToks "/terms" ++ [slashQ],
    litToks "/subscribe" ++ [slashQ], litToks "/newsletter" ++ [slashQ],
    litToks "/rss" ++ [slashQ], litToks "/sitemap",
    litToks "/api" ++ [slashQ], litToks "/feed" ++ [slashQ],
    litToks ".xml" ++ [RTok.eos], litToks ".rss" ++ [RTok.eos],
    litToks ".json" ++ [RTok.eos], litToks ".pdf" ++ [RTok.eos] ]

/-- `re.match(r'20\d{2}', seg)`. -/
def segYear : List RTok := litToks "20" ++ [digitTok, digitTok]

/-- `re.match(r'\d{4}-\d{2}-\d{2}', seg)`. -/
def segDate : List RTok :=
  [digitTok, digitTok, digitTok, digitTok] ++ litToks "-" ++
    [digitTok, digitTok] ++ litToks "-" ++ [digitTok, digitTok]

/-- The lowered path of a URL (`urlparse(url).path.lower()`). -/
def lowPath (url : String) : String := pyLower (parseUrl url).path

/-- The non-empty segments of the lowered path (line 165). -/
def path_segments (url : String) : List (List Char) :=
  (splitChar '/' (lowPath url).data).filter (fun seg => seg ≠ [])

/-- `_looks_like_article` from `scraper/link_filters.py`: exclude patterns
first, then include patterns, then the multi-segment date/slug heuristics,
then the long hyphen-rich path heuristic. -/
def looks_like_article (url : String) : Bool :=
  if exclude_patterns.any (fun p => reSearch p (pyLower url)) then false
  else if article_patterns.any (fun p => reSearch p (pyLower url)) then true
  else if 3 ≤ (path_segments url).length ∧
      (path_segments url).any (fun seg =>
        matchToks segYear seg || matchToks segDate seg ||
          (decide (10 < seg.length) && seg.contains '-')) then true
  else if 20 < pyLen (lowPath url) ∧ 2 ≤ pyCount (lowPath url) "-" then true
  else false

/-- The body of the link loop of `suggest_article_links` (lines 29-45):
resolve against the homepage, keep same-site links only, clean, keep
article-like URLs, deduplicate (set semantics, modelled as an ordered list
without duplicates). -/
def suggestStep (homepage_url : String) (acc : List String) (link : String) : List String :=
  if pyLower (parseUrl (urljoin homepage_url link)).netloc ≠
      pyLower (parseUrl homepage_url).netloc then acc
  else if clean_url (urljoin homepage_url link) = "" then acc
  else if looks_like_article (clean_url (urljoin homepage_url link)) then
    (if clean_url (urljoin homepage_url link) ∈ acc then acc
     else acc ++ [clean_url (urljoin homepage_url link)])
  else acc

/-- `suggest_article_links` from `scraper/link_filters.py`.  The Python
function accumulates a `set` and lists it in unspecified order; the model
keeps first-insertion order, membership being the meaningful result. -/
def suggest_article_links (homepage_url : String) (links : List String) : List String :=
  links.foldl (suggestStep homepage_url) []

/-! ### List-level lemmas for the URL model -/

theorem takeWhile_all {p : Char → Bool} :
    ∀ {l : List Char}, (∀ c ∈ l, p c = true) → l.takeWhile p = l := by
  intro l
  induction l with
  | nil => intro _; rfl
  | cons c cs ih =>
    intro h
    rw [List.takeWhile_cons_of_pos (h c (List.mem_cons_self _ _))]
    rw [ih (fun x hx => h x (List.mem_cons_of_mem _ hx))]

theorem dropWhile_all {p : Char → Bool} :
    ∀ {l : List Char}, (∀ c ∈ l, p c = true) → l.dropWhile p = [] := by
  intro l
  induction l with
  | nil => intro _; rfl
  | cons c cs ih =>
    intro h
    rw [List.dropWhile_cons, if_pos (h c (List.mem_cons_self _ _))]
    exact ih (fun x hx => h x (List.mem_cons_of_mem _ hx))

theorem takeWhile_append_all {p : Char → Bool} :
    ∀ {l1 : List Char}, (∀ c ∈ l1, p c = true) → ∀ (l2 : List Char),
      (l1 ++ l2).takeWhile p = l1 ++ l2.takeWhile p := by
  intro l1
  induction l1 with
  | nil => intro _ l2; rfl
  | cons c cs ih =>
    intro h l2
    rw [List.cons_append, List.takeWhile_cons_of_pos (h c (List.mem_cons_self _ _))]
    rw [ih (fun x hx => h x (List.mem_cons_of_mem _ hx)) l2]
    rfl

theorem takeWhile_append_stop {p : Char → Bool} {l1 : List Char}
    (h : ∀ c ∈ l1, p c = true) {x : Char} (hx : p x = false) (l2 : List Char) :
    (l1 ++ x :: l2).takeWhile p = l1 := by
  rw [takeWhile_append_all h]
  rw [List.takeWhile_cons, if_neg (by simp [hx])]
  exact List.append_nil l1

theorem dropWhile_append_stop {p : Char → Bool} :
    ∀ {l1 : List Char}, (∀ c ∈ l1, p c = true) → ∀ {x : Char}, p x = false →
      ∀ (l2 : List Char), (l1 ++ x :: l2).dropWhile p = x :: l2 := by
  intro l1
  induction l1 with
  | nil =>
    intro _ x hx l2
    rw [List.nil_append, List.dropWhile_cons, if_neg (by simp [hx])]
  | cons c cs ih =>
    intro h x hx l2
    rw [List.cons_append, List.dropWhile_cons, if_pos (h c (List.mem_cons_self _ _))]
    exact ih (fun y hy => h y (List.mem_cons_of_mem _ hy)) hx l2

theorem mem_of_mem_takeWhile {p : Char → Bool} {l : List Char} {c : Char}
    (h : c ∈ l.takeWhile p) : c ∈ l :=
  ((List.takeWhile_prefix p).sublist).mem h

theorem mem_of_mem_dropWhile {p : Char → Bool} {l : List Char} {c : Char}
    (h : c ∈ l.dropWhile p) : c ∈ l :=
  ((List.dropWhile_suffix p).sublist).mem h

theorem string_ext {s t : String} (h : s.data = t.data) : s = t := by
  cases s; cases t; exact congrArg String.mk h

theorem mk_ne_empty {l : List Char} (h : l ≠ []) : String.mk l ≠ "" := by
  intro hcon
  apply h
  have := congrArg String.data hcon
  simpa using this

theorem mk_eq_empty_iff {l : List Char} : String.mk l = "" ↔ l = [] := by
  constructor
  · intro hcon
    have := congrArg String.data hcon
    simpa using this
  · intro h
    rw [h]

/-! ### Lemmas about `splitChar` and `joinWith` -/

theorem splitChar_ne_nil {sep : Char} : ∀ (l : List Char), splitChar sep l ≠ [] := by
  intro l
  cases l with
  | nil => simp [splitChar]
  | cons c cs =>
    rw [splitChar]
    by_cases hc : c = sep
    · rw [if_pos hc]; simp
    · rw [if_neg hc]
      cases hr : splitChar sep cs <;> simp [consHead]

theorem mem_splitChar_not_sep {sep : Char} :
    ∀ {l : List Char} {piece : List Char}, piece ∈ splitChar sep l →
      ∀ {c : Char}, c ∈ piece → c ≠ sep := by
  intro l
  induction l with
  | nil =>
    intro piece h c hc
    simp [splitChar] at h
    rw [h] at hc
    simp at hc
  | cons a as ih =>
    intro piece h c hc
    rw [splitChar] at h
    by_cases ha : a = sep
    · rw [if_pos ha] at h
      rcases List.mem_cons.mp h with h1 | h1
      · rw [h1] at hc; simp at hc
      · exact ih h1 hc
    · rw [if_neg ha] at h
      cases hr : splitChar sep as with
      | nil => exact absurd hr (splitChar_ne_nil as)
      | cons x t =>
        rw [hr, consHead] at h
        rcases List.mem_cons.mp h with h1 | h1
        · rw [h1] at hc
          rcases List.mem_cons.mp hc with h2 | h2
          · rw [h2]; exact ha
          · exact ih (hr ▸ List.mem_cons_self x t) h2
        · exact ih (hr ▸ List.mem_cons_of_mem x h1) hc

theorem mem_splitChar_subset {sep : Char} :
    ∀ {l : List Char} {piece : List Char}, piece ∈ splitChar sep l →
      ∀ {c : Char}, c ∈ piece → c ∈ l := by
  intro l
  induction l with
  | nil =>
    intro piece h c hc
    simp [splitChar] at h
    rw [h] at hc
    simp at hc
  | cons a as ih =>
    intro piece h c hc
    rw [splitChar] at h
    by_cases ha : a = sep
    · rw [if_pos ha] at h
      rcases List.mem_cons.mp h with h1 | h1
      · rw [h1] at hc; simp at hc
      · exact List.mem_cons_of_mem _ (ih h1 hc)
    · rw [if_neg ha] at h
      cases hr : splitChar sep as with
      | nil => exact absurd hr (splitChar_ne_nil as)
      | cons x t =>
        rw [hr, consHead] at h
        rcases List.mem_cons.mp h with h1 | h1
        · rw [h1] at hc
          rcases List.mem_cons.mp hc with h2 | h2
          · rw [h2]; exact List.mem_cons_self _ _
          · exact List.mem_cons_of_mem _ (ih (hr ▸ List.mem_cons_self x t) h2)
        · exact List.mem_cons_of_mem _ (ih (hr ▸ List.mem_cons_of_mem x h1) hc)

theorem splitChar_no_sep {sep : Char} :
    ∀ {l : List Char}, (∀ c ∈ l, c ≠ sep) → splitChar sep l = [l] := by
  intro l
  induction l with
  | nil => intro _; rfl
  | cons a as ih =>
    intro h
    rw [splitChar, if_neg (h a (List.mem_cons_self _ _))]
    rw [ih (fun c hc => h c (List.mem_cons_of_mem _ hc))]
    rfl

theorem splitChar_append_sep {sep : Char} :
    ∀ {x : List Char}, (∀ c ∈ x, c ≠ sep) → ∀ (l2 : List Char),
      splitChar sep (x ++ sep :: l2) = x :: splitChar sep l2 := by
  intro x
  induction x with
  | nil =>
    intro _ l2
    rw [List.nil_append, splitChar, if_pos rfl]
  | cons a as ih =>
    intro h l2
    rw [List.cons_append, splitChar, if_neg (h a (List.mem_cons_self _ _))]
    rw [ih (fun c hc => h c (List.mem_cons_of_mem _ hc)) l2]
    rfl

theorem splitChar_joinWith {sep : Char} :
    ∀ {pieces : List (List Char)}, pieces ≠ [] →
      (∀ p ∈ pieces, ∀ c ∈ p, c ≠ sep) →
      splitChar sep (joinWith [sep] pieces) = pieces := by
  intro pieces
  induction pieces with
  | nil => intro h; exact absurd rfl h
  | cons x rest ih =>
    intro _ hall
    cases rest with
    | nil =>
      show splitChar sep x = [x]
      exact splitChar_no_sep (hall x (List.mem_cons_self _ _))
    | cons y t =>
      show splitChar sep (x ++ [sep] ++ joinWith [sep] (y :: t)) = x :: y :: t
      rw [List.append_assoc, List.singleton_append]
      rw [splitChar_append_sep (hall x (List.mem_cons_self _ _))]
      rw [ih (by simp) (fun p hp => hall p (List.mem_cons_of_mem _ hp))]

theorem mem_joinWith {sep : List Char} :
    ∀ {pieces : List (List Char)} {c : Char}, c ∈ joinWith sep pieces →
      c ∈ sep ∨ ∃ p ∈ pieces, c ∈ p := by
  intro pieces
  induction pieces with
  | nil => intro c h; simp [joinWith] at h
  | cons x rest ih =>
    intro c h
    cases rest with
    | nil =>
      exact Or.inr ⟨x, List.mem_cons_self _ _, h⟩
    | cons y t =>
      have hj : joinWith sep (x :: y :: t) = x ++ sep ++ joinWith sep (y :: t) := rfl
      rw [hj] at h
      rcases List.mem_append.mp h with h1 | h1
      · rcases List.mem_append.mp h1 with h2 | h2
        · exact Or.inr ⟨x, List.mem_cons_self _ _, h2⟩
        · exact Or.inl h2
      · rcases ih h1 with h2 | ⟨p, hp, hcp⟩
        · exact Or.inl h2
        · exact Or.inr ⟨p, List.mem_cons_of_mem _ hp, hcp⟩

theorem joinWith_ne_nil {sep : List Char} :
    ∀ {pieces : List (List Char)} {x : List Char}, pieces.head? = some x → x ≠ [] →
      joinWith sep pieces ≠ [] := by
  intro pieces x hh hx
  cases pieces with
  | nil => simp at hh
  | cons a rest =>
    have ha : a = x := by simpa using hh
    cases rest with
    | nil => show a ≠ []; rw [ha]; exact hx
    | cons y t =>
      show a ++ sep ++ joinWith sep (y :: t) ≠ []
      intro hcon
      rw [List.append_eq_nil, List.append_eq_nil] at hcon
      exact hx (ha ▸ hcon.1.1)

/-! ### Lemmas about `preOf`, `queryOf` and `clean_url` -/

theorem mem_preOf {s : List Char} {c : Char} (h : c ∈ preOf s) : c ≠ '#' ∧ c ≠ '?' := by
  unfold preOf at h
  have h1 : c ∈ s.takeWhile (fun c => c ≠ '#') := mem_of_mem_takeWhile h
  have h2 := List.mem_takeWhile_imp h1
  have h3 := List.mem_takeWhile_imp h
  exact ⟨by simpa using h2, by simpa using h3⟩

theorem preOf_eq_self {l : List Char} (h : ∀ c ∈ l, c ≠ '#' ∧ c ≠ '?') : preOf l = l := by
  unfold preOf
  rw [takeWhile_all (fun c hc => decide_eq_true (h c hc).1)]
  exact takeWhile_all (fun c hc => decide_eq_true (h c hc).2)

theorem mem_queryOf {s : List Char} {c : Char} (h : c ∈ queryOf s) : c ≠ '#' := by
  unfold queryOf at h
  have h1 := List.mem_of_mem_drop h
  have h2 : c ∈ s.takeWhile (fun c => c ≠ '#') := mem_of_mem_dropWhile h1
  simpa using List.mem_takeWhile_imp h2

theorem preOf_append_query {A Q : List Char} (hA : ∀ c ∈ A, c ≠ '#' ∧ c ≠ '?')
    (hQ : ∀ c ∈ Q, c ≠ '#') : preOf (A ++ '?' :: Q) = A := by
  have hall : ∀ c ∈ A ++ '?' :: Q, (fun c => decide (c ≠ '#')) c = true := by
    intro c hc
    rcases List.mem_append.mp hc with h1 | h1
    · exact decide_eq_true (hA c h1).1
    · rcases List.mem_cons.mp h1 with h2 | h2
      · rw [h2]; decide
      · exact decide_eq_true (hQ c h2)
  unfold preOf
  rw [takeWhile_all hall]
  exact takeWhile_append_stop (fun c hc => decide_eq_true (hA c hc).2) (by decide) Q

theorem queryOf_append_query {A Q : List Char} (hA : ∀ c ∈ A, c ≠ '#' ∧ c ≠ '?')
    (hQ : ∀ c ∈ Q, c ≠ '#') : queryOf (A ++ '?' :: Q) = Q := by
  have hall : ∀ c ∈ A ++ '?' :: Q, (fun c => decide (c ≠ '#')) c = true := by
    intro c hc
    rcases List.mem_append.mp hc with h1 | h1
    · exact decide_eq_true (hA c h1).1
    · rcases List.mem_cons.mp h1 with h2 | h2
      · rw [h2]; decide
      · exact decide_eq_true (hQ c h2)
  unfold queryOf
  rw [takeWhile_all hall]
  rw [dropWhile_append_stop (fun c hc => decide_eq_true (hA c hc).2) (by decide) Q]
  rfl

theorem queryOf_all_pre {A : List Char} (hA : ∀ c ∈ A, c ≠ '#' ∧ c ≠ '?') :
    queryOf A = [] := by
  unfold queryOf
  rw [takeWhile_all (fun c hc => decide_eq_true (hA c hc).1)]
  rw [dropWhile_all (fun c hc => decide_eq_true (hA c hc).2)]
  rfl

theorem keptParams_props {url : String} {p : List Char} (hp : p ∈ keptParams url) :
    keepParam p = true ∧ p ≠ [] ∧ (∀ c ∈ p, c ≠ '&' ∧ c ≠ '#') := by
  unfold keptParams at hp
  by_cases hq : (parseUrl url).query ≠ ""
  · rw [if_pos hq] at hp
    have hkeep := List.of_mem_filter hp
    have hmem := List.mem_of_mem_filter hp
    refine ⟨hkeep, ?_, ?_⟩
    · intro hnil
      rw [hnil] at hkeep
      simp [keepParam] at hkeep
    · intro c hc
      refine ⟨mem_splitChar_not_sep hmem hc, ?_⟩
      have hcq : c ∈ (parseUrl url).query.data := mem_splitChar_subset hmem hc
      exact mem_queryOf hcq
  · rw [if_neg hq] at hp
    simp at hp

theorem mem_join_kept_ne_hash {url : String} {c : Char}
    (hc : c ∈ joinWith ['&'] (keptParams url)) : c ≠ '#' := by
  rcases mem_joinWith hc with h1 | ⟨p, hp, hcp⟩
  · have h2 : c = '&' := by simpa using h1
    rw [h2]; decide
  · exact ((keptParams_props hp).2.2 c hcp).2

theorem clean_url_def (v : String) : clean_url v =
    if keptParams v ≠ [] then
      String.mk (preOf v.data ++ '?' :: joinWith ['&'] (keptParams v))
    else String.mk (preOf v.data) := rfl

theorem clean_url_data (url : String) :
    (clean_url url).data = preOf url.data ++
      (if keptParams url ≠ [] then '?' :: joinWith ['&'] (keptParams url) else []) := by
  rw [clean_url_def]
  by_cases hk : keptParams url ≠ []
  · rw [if_pos hk, if_pos hk]
  · rw [if_neg hk, if_neg hk]
    simp

theorem preOf_clean (url : String) : preOf (clean_url url).data = preOf url.data := by
  rw [clean_url_data]
  by_cases hk : keptParams url ≠ []
  · rw [if_pos hk]
    exact preOf_append_query (fun c hc => mem_preOf hc) (fun c hc => mem_join_kept_ne_hash hc)
  · rw [if_neg hk]
    rw [List.append_nil]
    exact preOf_eq_self (fun c hc => mem_preOf hc)

theorem parseUrl_scheme_clean (url : String) :
    (parseUrl (clean_url url)).scheme = (parseUrl url).scheme := by
  show String.mk (schemeSplit (preOf (clean_url url).data)).1 =
    String.mk (schemeSplit (preOf url.data)).1
  rw [preOf_clean]

theorem parseUrl_netloc_clean (url : String) :
    (parseUrl (clean_url url)).netloc = (parseUrl url).netloc := by
  show String.mk (netlocSplit (schemeSplit (preOf (clean_url url).data)).2).1 =
    String.mk (netlocSplit (schemeSplit (preOf url.data)).2).1
  rw [preOf_clean]

theorem keptParams_clean_of_ne (url : String) (hk : keptParams url ≠ []) :
    keptParams (clean_url url) = keptParams url := by
  obtain ⟨p0, rest, hkl⟩ : ∃ p0 rest, keptParams url = p0 :: rest := by
    cases hkk : keptParams url with
    | nil => exact absurd hkk hk
    | cons p0 rest => exact ⟨p0, rest, rfl⟩
  have hp0 : p0 ≠ [] := (keptParams_props (hkl ▸ List.mem_cons_self p0 rest)).2.1
  have hQne : joinWith ['&'] (keptParams url) ≠ [] :=
    joinWith_ne_nil (by rw [hkl]; rfl) hp0
  have hquery : queryOf (clean_url url).data = joinWith ['&'] (keptParams url) := by
    rw [clean_url_data, if_pos hk]
    exact queryOf_append_query (fun c hc => mem_preOf hc) (fun c hc => mem_join_kept_ne_hash hc)
  have hqstr : (parseUrl (clean_url url)).query.data = joinWith ['&'] (keptParams url) := hquery
  unfold keptParams
  rw [if_pos (show (parseUrl (clean_url url)).query ≠ "" by
    intro hcon
    have := congrArg String.data hcon
    rw [hqstr] at this
    exact hQne (by simpa using this))]
  rw [hqstr]
  rw [splitChar_joinWith hk (fun p hp c hc => ((keptParams_props hp).2.2 c hc).1)]
  exact List.filter_eq_self.mpr (fun p hp => (keptParams_props hp).1)

theorem keptParams_clean_of_nil (url : String) (hk : ¬ keptParams url ≠ []) :
    keptParams (clean_url url) = [] := by
  have hquery : queryOf (clean_url url).data = [] := by
    rw [clean_url_data, if_neg hk, List.append_nil]
    exact queryOf_all_pre (fun c hc => mem_preOf hc)
  have hqstr : (parseUrl (clean_url url)).query.data = [] := hquery
  unfold keptParams
  rw [if_neg (show ¬ (parseUrl (clean_url url)).query ≠ "" by
    intro hcon
    exact hcon (string_ext (by rw [hqstr])))]

theorem clean_url_idem (url : String) : clean_url (clean_url url) = clean_url url := by
  by_cases hk : keptParams url ≠ []
  · rw [clean_url_def (clean_url url), keptParams_clean_of_ne url hk, preOf_clean url,
      if_pos hk, clean_url_def url, if_pos hk]
  · rw [clean_url_def (clean_url url), keptParams_clean_of_nil url hk, preOf_clean url]
    rw [if_neg (by simp), clean_url_def url, if_neg hk]

/-! ### Scheme lemmas for `urljoin` -/

theorem validScheme_chars {s : List Char} (hs : validScheme s = true) :
    ∀ c ∈ s, c ≠ ':' ∧ c ≠ '#' ∧ c ≠ '?' := by
  cases s with
  | nil => simp [validScheme] at hs
  | cons a rest =>
    intro c hc
    rw [validScheme] at hs
    obtain ⟨ha, hrest⟩ := Bool.and_eq_true_iff.mp hs
    rcases List.mem_cons.mp hc with h1 | h1
    · subst h1
      refine ⟨?_, ?_, ?_⟩ <;> (intro hcon; subst hcon; exact absurd ha (by decide))
    · have hsc : schemeChar c = true := List.all_eq_true.mp hrest c h1
      refine ⟨?_, ?_, ?_⟩ <;> (intro hcon; subst hcon; exact absurd hsc (by decide))

theorem parse_scheme_valid {u : String} (h : (parseUrl u).scheme ≠ "") :
    validScheme (parseUrl u).scheme.data = true := by
  by_cases hcond : ((preOf u.data).any (fun c => c = ':') &&
      validScheme ((preOf u.data).takeWhile (fun c => c ≠ ':'))) = true
  · have h1 : (parseUrl u).scheme.data = (preOf u.data).takeWhile (fun c => c ≠ ':') := by
      show (schemeSplit (preOf u.data)).1 = _
      unfold schemeSplit
      rw [if_pos hcond]
    rw [h1]
    exact (Bool.and_eq_true_iff.mp hcond).2
  · have h1 : (parseUrl u).scheme = String.mk (schemeSplit (preOf u.data)).1 := rfl
    have h2 : (schemeSplit (preOf u.data)).1 = [] := by
      unfold schemeSplit
      rw [if_neg hcond]
    rw [h2] at h1
    exact absurd h1 h

theorem schemeSplit_constructed {s : List Char} (hs : validScheme s = true) (rest : List Char) :
    schemeSplit (preOf (s ++ ':' :: rest)) = (s, preOf rest) := by
  have hchars := validScheme_chars hs
  have hpre : preOf (s ++ ':' :: rest) = s ++ ':' :: preOf rest := by
    unfold preOf
    rw [takeWhile_append_all (fun c hc => decide_eq_true (hchars c hc).2.1)]
    rw [List.takeWhile_cons_of_pos (by decide)]
    rw [takeWhile_append_all (fun c hc => decide_eq_true (hchars c hc).2.2)]
    rw [List.takeWhile_cons_of_pos (by decide)]
  rw [hpre]
  have hany : (s ++ ':' :: preOf rest).any (fun c => c = ':') = true := by
    rw [List.any_eq_true]
    exact ⟨':', List.mem_append.mpr (Or.inr (List.mem_cons_self _ _)), by decide⟩
  have htake : (s ++ ':' :: preOf rest).takeWhile (fun c => c ≠ ':') = s :=
    takeWhile_append_stop (fun c hc => decide_eq_true (hchars c hc).1) (by decide) _
  have hdrop : (s ++ ':' :: preOf rest).dropWhile (fun c => c ≠ ':') = ':' :: preOf rest :=
    dropWhile_append_stop (fun c hc => decide_eq_true (hchars c hc).1) (by decide) _
  unfold schemeSplit
  rw [htake, hdrop, hany, hs]
  simp

theorem parse_scheme_constructed {s : List Char} (hs : validScheme s = true) (rest : List Char) :
    (parseUrl (String.mk (s ++ ':' :: rest))).scheme = String.mk s := by
  show String.mk (schemeSplit (preOf (s ++ ':' :: rest))).1 = String.mk s
  rw [schemeSplit_constructed hs]

theorem parseUrl_empty_scheme : (parseUrl "").scheme = "" := rfl

theorem urljoin_absolute {h l : String} (hs : (parseUrl l).scheme ≠ "") :
    urljoin h l = l := by
  have hne : l ≠ "" := by
    intro hcon
    rw [hcon] at hs
    exact hs parseUrl_empty_scheme
  unfold urljoin
  rw [if_neg hne, if_pos hs]

theorem urljoin_scheme_ne {h : String} (W1 : (parseUrl h).scheme ≠ "") (l : String) :
    (parseUrl (urljoin h l)).scheme ≠ "" := by
  have hvalid : validScheme (parseUrl h).scheme.data = true := parse_scheme_valid W1
  have key : ∀ (n p : String),
      (parseUrl (unsplitUrl (parseUrl h).scheme n p)).scheme ≠ "" := by
    intro n p
    have hdata : (unsplitUrl (parseUrl h).scheme n p).data =
        (parseUrl h).scheme.data ++ ':' ::
          ((if n ≠ "" then "//" ++ n else "").data ++ p.data) := by
      unfold unsplitUrl
      rw [if_pos W1]
      rw [String.data_append, String.data_append, String.data_append]
      rw [show (":" : String).data = [':'] from rfl]
      simp
    have hsch : (parseUrl (unsplitUrl (parseUrl h).scheme n p)).scheme =
        String.mk (parseUrl h).scheme.data := by
      show String.mk (schemeSplit (preOf (unsplitUrl (parseUrl h).scheme n p).data)).1 = _
      rw [hdata]
      rw [show schemeSplit (preOf ((parseUrl h).scheme.data ++ ':' ::
        ((if n ≠ "" then "//" ++ n else "").data ++ p.data))) =
          ((parseUrl h).scheme.data, preOf ((if n ≠ "" then "//" ++ n else "").data ++ p.data))
        from schemeSplit_constructed hvalid _]
    rw [hsch]
    intro hcon
    apply W1
    exact string_ext (by simpa using congrArg String.data hcon)
  unfold urljoin
  by_cases h0 : l = ""
  · rw [if_pos h0]; exact W1
  · rw [if_neg h0]
    by_cases h1 : (parseUrl l).scheme ≠ ""
    · rw [if_pos h1]; exact h1
    · rw [if_neg h1]
      by_cases h2 : l.data.take 2 = ['/', '/']
      · rw [if_pos h2]; exact key "" l
      · rw [if_neg h2]
        by_cases h3 : l.data.head? = some '/'
        · rw [if_pos h3]; exact key _ l
        · rw [if_neg h3]; exact key _ _

/-! ### Fold lemmas for `suggest_article_links` -/

theorem suggestStep_shape (h : String) (acc : List String) (link : String) :
    suggestStep h acc link = acc ∨
    suggestStep h acc link = acc ++ [clean_url (urljoin h link)] := by
  unfold suggestStep
  by_cases h1 : pyLower (parseUrl (urljoin h link)).netloc ≠ pyLower (parseUrl h).netloc
  · rw [if_pos h1]; exact Or.inl rfl
  · rw [if_neg h1]
    by_cases h2 : clean_url (urljoin h link) = ""
    · rw [if_pos h2]; exact Or.inl rfl
    · rw [if_neg h2]
      by_cases h3 : looks_like_article (clean_url (urljoin h link)) = true
      · rw [if_pos h3]
        by_cases h4 : clean_url (urljoin h link) ∈ acc
        · rw [if_pos h4]; exact Or.inl rfl
        · rw [if_neg h4]; exact Or.inr rfl
      · rw [if_neg h3]; exact Or.inl rfl

theorem suggestStep_mono {h : String} {acc : List String} {link x : String}
    (hx : x ∈ acc) : x ∈ suggestStep h acc link := by
  rcases suggestStep_shape h acc link with h1 | h1
  · rw [h1]; exact hx
  · rw [h1]; exact List.mem_append.mpr (Or.inl hx)

theorem suggest_fold_mono {h : String} :
    ∀ (links : List String) (acc : List String) {x : String}, x ∈ acc →
      x ∈ links.foldl (suggestStep h) acc := by
  intro links
  induction links with
  | nil => intro acc x hx; simpa using hx
  | cons l rest ih =>
    intro acc x hx
    rw [List.foldl_cons]
    exact ih _ (suggestStep_mono hx)

theorem mem_suggestStep {h : String} {acc : List String} {link x : String}
    (hx : x ∈ suggestStep h acc link) :
    x ∈ acc ∨
      (x = clean_url (urljoin h link) ∧
       pyLower (parseUrl (urljoin h link)).netloc = pyLower (parseUrl h).netloc ∧
       x ≠ "" ∧ looks_like_article x = true) := by
  unfold suggestStep at hx
  by_cases h1 : pyLower (parseUrl (urljoin h link)).netloc ≠ pyLower (parseUrl h).netloc
  · rw [if_pos h1] at hx; exact Or.inl hx
  · rw [if_neg h1] at hx
    by_cases h2 : clean_url (urljoin h link) = ""
    · rw [if_pos h2] at hx; exact Or.inl hx
    · rw [if_neg h2] at hx
      by_cases h3 : looks_like_article (clean_url (urljoin h link)) = true
      · rw [if_pos h3] at hx
        by_cases h4 : clean_url (urljoin h link) ∈ acc
        · rw [if_pos h4] at hx; exact Or.inl hx
        · rw [if_neg h4] at hx
          rcases List.mem_append.mp hx with h5 | h5
          · exact Or.inl h5
          · have h6 : x = clean_url (urljoin h link) := by simpa using h5
            subst h6
            exact Or.inr ⟨rfl, not_not.mp h1, h2, h3⟩
      · rw [if_neg h3] at hx; exact Or.inl hx

theorem suggest_fold_origin {h : String} :
    ∀ (links : List String) (acc : List String) (x : String),
      x ∈ links.foldl (suggestStep h) acc →
      x ∈ acc ∨ ∃ l ∈ links,
        x = clean_url (urljoin h l) ∧
        pyLower (parseUrl (urljoin h l)).netloc = pyLower (parseUrl h).netloc ∧
        x ≠ "" ∧ looks_like_article x = true := by
  intro links
  induction links with
  | nil => intro acc x hx; exact Or.inl (by simpa using hx)
  | cons l rest ih =>
    intro acc x hx
    rw [List.foldl_cons] at hx
    rcases ih _ x hx with h1 | ⟨l', hl', hprops⟩
    · rcases mem_suggestStep h1 with h2 | h2
      · exact Or.inl h2
      · exact Or.inr ⟨l, List.mem_cons_self _ _, h2⟩
    · exact Or.inr ⟨l', List.mem_cons_of_mem _ hl', hprops⟩

theorem suggestStep_insert {h : String} {acc : List String} {l : String}
    (hcond : pyLower (parseUrl (urljoin h l)).netloc = pyLower (parseUrl h).netloc)
    (hclean : clean_url (urljoin h l) = l) (hne : l ≠ "")
    (hlooks : looks_like_article l = true) :
    l ∈ suggestStep h acc l := by
  unfold suggestStep
  rw [if_neg (fun hcon => hcon hcond), hclean, if_neg hne, if_pos hlooks]
  by_cases h4 : l ∈ acc
  · rw [if_pos h4]; exact h4
  · rw [if_neg h4]; exact List.mem_append.mpr (Or.inr (List.mem_cons_self _ _))

theorem suggest_fold_insert {h : String} :
    ∀ (links : List String) (acc : List String) {l : String}, l ∈ links →
      pyLower (parseUrl (urljoin h l)).netloc = pyLower (parseUrl h).netloc →
      clean_url (urljoin h l) = l → l ≠ "" → looks_like_article l = true →
      l ∈ links.foldl (suggestStep h) acc := by
  intro links
  induction links with
  | nil => intro acc l hl; simp at hl
  | cons a rest ih =>
    intro acc l hl hcond hclean hne hlooks
    rw [List.foldl_cons]
    rcases List.mem_cons.mp hl with h1 | h1
    · subst h1
      exact suggest_fold_mono rest _ (suggestStep_insert hcond hclean hne hlooks)
    · exact ih _ h1 hcond hclean hne hlooks

/-! ### Claim C4: exclude patterns take precedence -/

theorem looks_like_article_excl {u : String} (h : looks_like_article u = true) :
    exclude_patterns.any (fun p => reSearch p (pyLower u)) = false := by
  by_cases hexc : exclude_patterns.any (fun p => reSearch p (pyLower u)) = true
  · unfold looks_like_article at h
    rw [if_pos hexc] at h
    exact absurd h (by simp)
  · simpa using hexc

/-- C4: a URL matching any exclude pattern of `_looks_like_article` is never
among the suggested article links, for every homepage and raw link list —
even when it also matches an include pattern, since the exclude patterns are
checked first. -/
theorem C4_exclude_patterns_precede (homepage_url : String) (links : List String)
    (u : String)
    (hexc : exclude_patterns.any (fun p => reSearch p (pyLower u)) = true) :
    u ∉ suggest_article_links homepage_url links := by
  intro hmem
  rcases suggest_fold_origin links [] u hmem with h1 | ⟨l, _, _, _, _, hlooks⟩
  · simp at h1
  · rw [looks_like_article_excl hlooks] at hexc
    exact absurd hexc (by simp)

/-- Witness for C4 at a URL matching both a `/tag/` exclude pattern and a
date include pattern. -/
theorem C4_exclude_patterns_precede_witness :
    exclude_patterns.any
      (fun p => reSearch p (pyLower "http://a.com/tag/2023/05/story")) = true ∧
    article_patterns.any
      (fun p => reSearch p (pyLower "http://a.com/tag/2023/05/story")) = true ∧
    "http://a.com/tag/2023/05/story" ∉
      suggest_article_links "http://a.com" ["/tag/2023/05/story"] :=
  ⟨by decide, by decide,
   C4_exclude_patterns_precede "http://a.com" ["/tag/2023/05/story"]
     "http://a.com/tag/2023/05/story" (by decide)⟩

/-! ### Claim C9 (corrected): idempotence of the link filter -/

theorem suggest_elem_props {h : String} (W1 : (parseUrl h).scheme ≠ "")
    {links : List String} {u : String}
    (hu : u ∈ suggest_article_links h links) :
    (parseUrl u).scheme ≠ "" ∧
    pyLower (parseUrl u).netloc = pyLower (parseUrl h).netloc ∧
    clean_url u = u ∧ u ≠ "" ∧ looks_like_article u = true := by
  rcases suggest_fold_origin links [] u hu with h1 | ⟨l, _, hueq, hcond, hne, hlooks⟩
  · simp at h1
  · refine ⟨?_, ?_, ?_, hne, hlooks⟩
    · rw [hueq, parseUrl_scheme_clean]
      exact urljoin_scheme_ne W1 l
    · rw [hueq, parseUrl_netloc_clean]
      exact hcond
    · rw [hueq]
      exact clean_url_idem _

/-- C9 counterexample: for a scheme-less homepage URL, the filter is not
idempotent: the surviving relative candidate is re-resolved against the
homepage path on the second pass and changes, so the output sets differ. -/
theorem C9_not_idempotent_counterexample :
    "a.com/dir/news/big-story-here" ∈
      suggest_article_links "a.com/dir/p" ["news/big-story-here"] ∧
    "a.com/dir/news/big-story-here" ∉
      suggest_article_links "a.com/dir/p"
        (suggest_article_links "a.com/dir/p" ["news/big-story-here"]) := by
  constructor
  · decide
  · decide

/-- C9 (amended): for every homepage URL that carries a URL scheme (an
absolute URL), `suggest_article_links` is idempotent as a set of URLs:
feeding the returned list back as the raw links yields exactly the same
membership. -/
theorem C9_filter_idempotent_amended (homepage_url : String)
    (W1 : (parseUrl homepage_url).scheme ≠ "") (links : List String) (u : String) :
    u ∈ suggest_article_links homepage_url (suggest_article_links homepage_url links) ↔
    u ∈ suggest_article_links homepage_url links := by
  constructor
  · intro hu
    rcases suggest_fold_origin (suggest_article_links homepage_url links) [] u hu with
      h1 | ⟨l, hlR, hueq, _, _, _⟩
    · simp at h1
    · obtain ⟨hsch, _, hcleanl, _, _⟩ := suggest_elem_props W1 hlR
      have hjoin : urljoin homepage_url l = l := urljoin_absolute hsch
      rw [hueq, hjoin, hcleanl]
      exact hlR
  · intro hu
    obtain ⟨hsch, hnet, hclean, hne, hlooks⟩ := suggest_elem_props W1 hu
    have hjoin : urljoin homepage_url u = u := urljoin_absolute hsch
    exact suggest_fold_insert _ [] hu (by rw [hjoin]; exact hnet)
      (by rw [hjoin]; exact hclean) hne hlooks

/-- Witness for the amended C9 at a concrete absolute homepage URL and a
mixed link list. -/
theorem C9_filter_idempotent_amended_witness :
    (parseUrl "http://a.com/dir/p").scheme ≠ "" ∧
    ∀ u, u ∈ suggest_article_links "http://a.com/dir/p"
        (suggest_article_links "http://a.com/dir/p"
          ["news/big-story-here", "/tag/x", "http://other.com/news/y"]) ↔
      u ∈ suggest_article_links "http://a.com/dir/p"
        ["news/big-story-here", "/tag/x", "http://other.com/news/y"] :=
  ⟨by decide,
   fun u => C9_filter_idempotent_amended "http://a.com/dir/p" (by decide)
     ["news/big-story-here", "/tag/x", "http://other.com/news/y"] u⟩

end Scraper
